import Mathlib

/-!
Verification of the adaptive RAG orchestrator repository.

This file shallowly embeds the parts of the code base that the checked
properties talk about:

* `backend/app/rag/hybrid_search.py` (query decomposition, intent detection),
* `backend/app/rag/adaptive_rag.py` (retrieval aggregation, response
  evaluation, the refine loop, response generation),
* `backend/app/rag/rag_query.py` (context building),
* `backend/app/chat/conversation_context.py` (turn history and compaction).

Python floats are modelled as rationals, Python dicts with insertion order as
association lists, and Python strings as Lean strings (character-level
operations such as slicing and lower-casing coincide on the inputs involved).
The regular expressions used by the code are small word-boundary patterns;
they are embedded by explicit scanners over character lists.
-/

namespace PyStr

/-- Word character in the sense of the `\w` / `\b` regex classes
(ASCII letters, digits and underscore; the queries involved are ASCII). -/
def isWordChar (c : Char) : Bool :=
  c.isAlpha || c.isDigit || c = '_'

/-- Lower-casing, modelling Python `str.lower()` on ASCII text. -/
def lower (s : String) : String :=
  String.mk (s.data.map Char.toLower)

/-- `dropPre pat s` returns the rest of `s` after the prefix `pat`,
if `s` starts with `pat`. -/
def dropPre : List Char → List Char → Option (List Char)
  | [], s => some s
  | _ :: _, [] => none
  | p :: ps, c :: cs => if p = c then dropPre ps cs else none

/-- Does the tail start with a non-word character (or end of input)?
This is the right-hand `\b` condition after a match. -/
def rightBoundOk : List Char → Bool
  | [] => true
  | c :: _ => !isWordChar c

/-- Does `pat` match at the head of `s`, with a `\b` boundary after it
when `rb` is set? -/
def matchesHere (rb : Bool) (pat s : List Char) : Bool :=
  match dropPre pat s with
  | some rest => !rb || rightBoundOk rest
  | none => false

/-- Scanner for `re.search` of a single literal alternative with a `\b` on the
left and, when `rb` is set, a `\b` on the right.  `prevWord` records whether
the character before the current position is a word character. -/
def scanBounded (rb : Bool) (pat : List Char) : Bool → List Char → Bool
  | prevWord, s =>
    if !prevWord && matchesHere rb pat s then true
    else
      match s with
      | [] => false
      | c :: cs => scanBounded rb pat (isWordChar c) cs

/-- `re.search(r'\b<pat>\b', s) is not None` for a literal `pat` starting and
ending in word characters. -/
def reWord (pat : String) (s : String) : Bool :=
  scanBounded true pat.data false s.data

/-- `re.search(r'\b<pat>', s) is not None` (left boundary only, as in the
`\bprocedure` alternative). -/
def reWordLeft (pat : String) (s : String) : Bool :=
  scanBounded false pat.data false s.data

/-- Substring containment, modelling Python's `needle in hay` for strings. -/
def strContains (hay needle : String) : Bool :=
  containsAux needle.data hay.data
where
  containsAux (pat : List Char) : List Char → Bool
    | [] => (dropPre pat []).isSome
    | c :: cs => (dropPre pat (c :: cs)).isSome || containsAux pat cs

/-- First component of Python `s.split(sep)` (text before the first
occurrence of `sep`, or all of `s` when `sep` does not occur). -/
def splitHead (sep s : String) : String :=
  String.mk (splitHeadAux sep.data s.data)
where
  splitHeadAux (sep : List Char) : List Char → List Char
    | [] => []
    | c :: cs =>
      if (dropPre sep (c :: cs)).isSome then []
      else c :: splitHeadAux sep cs

/-- Python whitespace (`str.strip` default / regex `\s`, ASCII part). -/
def isSpace (c : Char) : Bool :=
  c = ' ' || c = '\t' || c = '\n' || c = '\r' || c = '\x0b' || c = '\x0c'

/-- Python `s.strip()`. -/
def pyStrip (s : String) : String :=
  String.mk (((s.data.dropWhile isSpace).reverse.dropWhile isSpace).reverse)

/-- Python `lst[-k:]` on lists: the last `k` elements — except that for
`k = 0` the slice bound `-0` is `0`, so the whole list is returned. -/
def pySliceLast (k : Nat) (l : List α) : List α :=
  if k = 0 then l else l.drop (l.length - k)

/-- Python `str(x)` for a list of strings, e.g. `str(['a', 'b']) = "['a', 'b']"`. -/
def pyStrList (l : List String) : String :=
  "[" ++ String.intercalate ", " (l.map (fun s => "'" ++ s ++ "'")) ++ "]"

/-- Helper for `wordRuns`: `acc` holds the reversed current run of word
characters. -/
def wordRunsAux : List Char → List Char → List String
  | acc, [] => if acc.isEmpty then [] else [String.mk acc.reverse]
  | acc, c :: cs =>
    if isWordChar c then wordRunsAux (c :: acc) cs
    else if acc.isEmpty then wordRunsAux [] cs
    else String.mk acc.reverse :: wordRunsAux [] cs

/-- All matches of `re.findall(r'\b[\w]+\b', s)`: the maximal runs of word
characters (for `\w+` runs the `\b` anchors are automatic). -/
def wordRuns (l : List Char) : List String :=
  wordRunsAux [] l

/-- Split at the first `"`: `some (content, rest)` when a `"` occurs, with
`content` the characters before it and `rest` the characters after it. -/
def takeUntilQuote : List Char → Option (List Char × List Char)
  | [] => none
  | c :: cs =>
    if c = '"' then some ([], cs)
    else
      match takeUntilQuote cs with
      | some (content, rest) => some (c :: content, rest)
      | none => none

/-- Fuel-indexed scanner for the regex `"([^"]+)"` (as used by
`re.findall` / `re.sub`): returns the matched groups in order together with
the input text with every match (quotes included) removed.  Every step
consumes at least one character, so fuel `= length` always suffices. -/
def scanQuotedFuel : Nat → List Char → List String × List Char
  | 0, s => ([], s)
  | _ + 1, [] => ([], [])
  | fuel + 1, c :: cs =>
    if c = '"' then
      match takeUntilQuote cs with
      | some (content, rest) =>
        if content.isEmpty then
          -- `[^"]+` needs at least one character: no match starts here
          let (qs, rem) := scanQuotedFuel fuel cs
          (qs, c :: rem)
        else
          let (qs, rem) := scanQuotedFuel fuel rest
          (String.mk content :: qs, rem)
      | none =>
        let (qs, rem) := scanQuotedFuel fuel cs
        (qs, c :: rem)
    else
      let (qs, rem) := scanQuotedFuel fuel cs
      (qs, c :: rem)

/-- All matches of `"([^"]+)"` plus the text with the matches removed. -/
def scanQuoted (s : List Char) : List String × List Char :=
  scanQuotedFuel s.length s

/-- Ordered de-duplication with exact equality (Python `dict.fromkeys`). -/
def dedupAux [DecidableEq α] (seen : List α) : List α → List α
  | [] => []
  | x :: xs => if x ∈ seen then dedupAux seen xs else x :: dedupAux (x :: seen) xs

/-- Ordered de-duplication with exact equality (Python `dict.fromkeys`). -/
def dedupKeepFirst [DecidableEq α] (l : List α) : List α :=
  dedupAux [] l

/-- Ordered case-insensitive de-duplication (`seen`-set of lower-cased keys). -/
def dedupByLowerAux (seen : List String) : List String → List String
  | [] => []
  | q :: qs =>
    if lower q ∈ seen then dedupByLowerAux seen qs
    else q :: dedupByLowerAux (lower q :: seen) qs

/-- Ordered case-insensitive de-duplication (`seen`-set of lower-cased keys). -/
def dedupByLower (l : List String) : List String :=
  dedupByLowerAux [] l

end PyStr

/-!
## `backend/app/rag/hybrid_search.py` — `QueryDecomposer`
-/

namespace QueryDecomposer

open PyStr

/-- The decomposition result (`SearchQuery` dataclass). -/
structure SearchQuery where
  original : String
  decomposed : List String
  intent : String
  is_comprehensive : Bool
deriving Repr, DecidableEq

/-- `QueryDecomposer.STOP_WORDS`. -/
def STOP_WORDS : List String :=
  ["the", "a", "an", "and", "or", "but", "in", "on", "at", "to", "for",
   "of", "with", "by", "from", "up", "about", "into", "through", "during",
   "is", "are", "was", "were", "be", "been", "being", "have", "has", "had",
   "do", "does", "did", "will", "would", "could", "should", "may", "might",
   "must", "can", "this", "that", "these", "those", "i", "you", "he", "she",
   "it", "we", "they", "what", "which", "who", "when", "where", "why", "how",
   "all", "each", "every", "both", "few", "more", "most", "other", "some",
   "such", "no", "nor", "not", "only", "same", "so", "than", "too", "very",
   "just", "my", "me", "your", "him", "her", "its", "our", "their"]

/-- `QueryDecomposer._tokenize`: the `"([^"]+)"` groups (kept verbatim, in
order of occurrence) followed by the `\b[\w]+\b` tokens of the lower-cased
text with the quoted parts removed. -/
def tokenize (text : String) : List String :=
  let scanned := scanQuoted text.data
  scanned.1 ++ wordRuns (lower (String.mk scanned.2)).data

/-- `QueryDecomposer._extract_key_terms`: drop stop words and one-character
tokens, then de-duplicate preserving order. -/
def extract_key_terms (query : String) : List String :=
  let tokens := tokenize query
  dedupKeepFirst (tokens.filter fun t => !(STOP_WORDS.contains (lower t)) && decide (t.length > 1))

/-- `QueryDecomposer.is_comprehensive_query`: search for any of the patterns
`\ball\b, \blist\b, \bshow\b, \benumerate\b, \bwhat are\b, \bfind all\b,
\bget all\b` in the lower-cased query. -/
def is_comprehensive_query (query : String) : Bool :=
  let ql := lower query
  reWord "all" ql || reWord "list" ql || reWord "show" ql || reWord "enumerate" ql ||
    reWord "what are" ql || reWord "find all" ql || reWord "get all" ql

/-- The `\bhow to\b|\bsteps\b|\bprocedure` alternation of `detect_intent`
(applied to the lower-cased query). -/
def procedural_hit (ql : String) : Bool :=
  reWord "how to" ql || reWord "steps" ql || reWordLeft "procedure" ql

/-- The `\ball\b|\blist\b|\bshow\b|\benumerate\b` alternation of
`detect_intent`. -/
def comprehensive_hit (ql : String) : Bool :=
  reWord "all" ql || reWord "list" ql || reWord "show" ql || reWord "enumerate" ql

/-- The `\bwhy\b|\bexplain\b` alternation of `detect_intent`. -/
def why_explain_hit (ql : String) : Bool :=
  reWord "why" ql || reWord "explain" ql

/-- The `\bwhat (is|are)\b` pattern of `detect_intent`. -/
def what_is_are_hit (ql : String) : Bool :=
  reWord "what is" ql || reWord "what are" ql

/-- The `\bfind\b|\bget\b|\bfetch\b` alternation of `detect_intent`. -/
def find_get_fetch_hit (ql : String) : Bool :=
  reWord "find" ql || reWord "get" ql || reWord "fetch" ql

/-- `QueryDecomposer.detect_intent`: the rule cascade on the lower-cased
query, first match wins (each `elif` branch named by its alternation
above). -/
def detect_intent (query : String) : String :=
  let ql := lower query
  if procedural_hit ql then "procedural"
  else if comprehensive_hit ql then "comprehensive"
  else if why_explain_hit ql then "explanatory"
  else if what_is_are_hit ql then "explanatory"
  else if find_get_fetch_hit ql then "specific"
  else "general"

/-- `QueryDecomposer._generate_sub_queries`: individual terms, adjacent
pairs, the full join (when more than one term), skip-one pairs and 3-term
windows, in that order. -/
def generate_sub_queries (key_terms : List String) : List String :=
  if key_terms.isEmpty then []
  else
    let n := key_terms.length
    let adjacent := (List.range (n - 1)).map fun i =>
      key_terms.getD i "" ++ " " ++ key_terms.getD (i + 1) ""
    let all_terms := if n > 1 then [String.intercalate " " key_terms] else []
    let skip := (List.range (n - 2)).map fun i =>
      key_terms.getD i "" ++ " " ++ key_terms.getD (i + 2) ""
    let triplets := (List.range (n - 2)).map fun i =>
      key_terms.getD i "" ++ " " ++ key_terms.getD (i + 1) "" ++ " " ++ key_terms.getD (i + 2) ""
    key_terms ++ adjacent ++ all_terms ++ skip ++ triplets

/-- `QueryDecomposer.decompose_comprehensive_query`: original query first,
then the generated sub-queries, case-insensitively de-duplicated and capped
at 8. -/
def decompose_comprehensive_query (query : String) : List String :=
  let key_terms := extract_key_terms query
  let sub_queries := query :: (if key_terms.isEmpty then [] else generate_sub_queries key_terms)
  (dedupByLower sub_queries).take 8

/-- The context-stripping step shared by `decompose` (and by
`_retrieve_documents` / `_evaluate_response` in `adaptive_rag.py`):
`query.split('\n\nContext:')[0].strip()` when the marker occurs, else
`query.strip()`. -/
def clean_of (query : String) : String :=
  if strContains query "\n\nContext:" then pyStrip (splitHead "\n\nContext:" query)
  else pyStrip query

/-- Spec-style description of strategy 2 of `_generate_sub_queries`: one
entry per adjacent pair of key terms. -/
def adjacentPairs (kt : List String) : List String :=
  (kt.zip kt.tail).map fun p => p.1 ++ " " ++ p.2

/-- Spec-style description of strategy 4 of `_generate_sub_queries`: one
entry per skip-one pair of key terms. -/
def skipPairs (kt : List String) : List String :=
  (kt.zip kt.tail.tail).map fun p => p.1 ++ " " ++ p.2

/-- Spec-style description of strategy 5 of `_generate_sub_queries`: one
entry per 3-term window of key terms. -/
def tripleWindows (kt : List String) : List String :=
  ((kt.zip kt.tail).zip kt.tail.tail).map fun p => p.1.1 ++ " " ++ p.1.2 ++ " " ++ p.2

/-- `QueryDecomposer.decompose`. -/
def decompose (query : String) : SearchQuery :=
  let clean_query := clean_of query
  let intent := detect_intent clean_query
  let is_comp := is_comprehensive_query clean_query
  let decomposed :=
    if is_comp || intent = "comprehensive" || intent = "procedural" || intent = "explanatory" then
      decompose_comprehensive_query clean_query
    else
      let d := generate_sub_queries (extract_key_terms clean_query)
      if d.isEmpty then [clean_query] else d
  { original := clean_query, decomposed := decomposed, intent := intent,
    is_comprehensive := is_comp }

end QueryDecomposer

/-!
## `backend/app/rag/adaptive_rag.py` — retrieval aggregation

`_retrieve_documents` runs one similarity search per decomposed sub-query and
aggregates the raw hits.  The external collaborators (embedding model and
vector index) are modelled by their output: `searchResults`, the list of raw
hit lists, one per sub-query in decomposition order.  Distances are
rationals.
-/

namespace AdaptiveRag

open PyStr

/-- Decoded chunk metadata.  The ingestion collaborator guarantees these
fields; `commands` and `section_path` are the decoded versions of the
JSON-encoded `commands_json` / `section_path_json` fields. -/
structure ChunkMeta where
  doc_id : String
  section_path : List String
  section_path_str : String
  kind : String
  step_no : Nat
  has_code : Bool
  start_line : Nat
  end_line : Nat
  commands : List String
deriving Repr, DecidableEq

/-- One raw hit from a similarity search, after the metadata has been
decoded. -/
structure RawHit where
  text : String
  md : ChunkMeta
  distance : ℚ
deriving Repr, DecidableEq

/-- An aggregated hit as stored in the `all_hits` dict:
the raw hit data plus `combined_score` and `source` (`= doc_id`). -/
structure AggHit where
  text : String
  md : ChunkMeta
  distance : ℚ
  combined_score : ℚ
  source : String
deriving Repr, DecidableEq

/-- The identity key: `hit_id = source + "_" + str(section_path)`
with `source = md["doc_id"]`. -/
def hit_id (h : RawHit) : String :=
  h.md.doc_id ++ "_" ++ pyStrList h.md.section_path

/-- `combined_score = dist + (search_idx * 0.01)`. -/
def combined_score_of (search_idx : Nat) (dist : ℚ) : ℚ :=
  dist + search_idx * 0.01

/-- First sighting of an identity: the dict entry built at line 410. -/
def mkAggHit (h : RawHit) (cs : ℚ) : AggHit :=
  { text := h.text, md := h.md, distance := h.distance, combined_score := cs,
    source := h.md.doc_id }

/-- Association-list lookup (first entry with the key), modelling `dict`
access. -/
def alookup (key : String) : List (String × β) → Option β
  | [] => none
  | (k, v) :: es => if k = key then some v else alookup key es

/-- Association-list update of every entry carrying `key` (keys are kept
unique, so at most one entry changes), modelling `dict` assignment. -/
def aupdate (key : String) (v : β) (l : List (String × β)) : List (String × β) :=
  l.map fun e => if e.1 = key then (key, v) else e

/-- The three insertion-ordered dicts the aggregation loop maintains:
`all_hits`, `search_order` and `source_diversity`. -/
structure AggState where
  all_hits : List (String × AggHit)
  search_order : List (String × Nat)
  source_diversity : List (String × List String)
deriving Repr, DecidableEq

/-- Processing of a single raw hit in the nested loop of
`_retrieve_documents` (lines 395-429): `ev = (search_idx, raw hit)`. -/
def processHit (st : AggState) (ev : Nat × RawHit) : AggState :=
  let search_idx := ev.1
  let h := ev.2
  let source := h.md.doc_id
  let key := hit_id h
  let cs := combined_score_of search_idx h.distance
  match alookup key st.all_hits with
  | none =>
    { all_hits := st.all_hits ++ [(key, mkAggHit h cs)],
      search_order := st.search_order ++ [(key, search_idx)],
      source_diversity := st.source_diversity ++ [(key, [source])] }
  | some a =>
    let a' := if cs < a.combined_score
      then { a with distance := h.distance, combined_score := cs } else a
    let st1 := { st with all_hits := aupdate key a' st.all_hits }
    match alookup key st1.source_diversity with
    | some srcs =>
      if source ∈ srcs then st1
      else { st1 with source_diversity := aupdate key (srcs ++ [source]) st1.source_diversity }
    | none => st1
    -- the `none` branch cannot occur: a key present in `all_hits` always has
    -- a `source_diversity` entry (in Python it would raise `KeyError`)

/-- The nested `for search_idx ... for doc_idx ...` loops flattened in
execution order: all `(search_idx, hit)` events. -/
def flattenEvents (searchResults : List (List RawHit)) : List (Nat × RawHit) :=
  (searchResults.enum.map fun p => p.2.map fun h => (p.1, h)).flatten

/-- The aggregation loop of `_retrieve_documents`. -/
def aggregate (searchResults : List (List RawHit)) : AggState :=
  (flattenEvents searchResults).foldl processHit ⟨[], [], []⟩

/-- Comparison used by `sorted(all_hits.values(), key=lambda x: x['combined_score'])`. -/
def scoreLe (a b : AggHit) : Prop :=
  a.combined_score ≤ b.combined_score

instance : DecidableRel scoreLe := fun a b =>
  inferInstanceAs (Decidable (a.combined_score ≤ b.combined_score))

/-- `sorted_hits`: the dict values in insertion order, stably sorted by
ascending `combined_score` (Python's `sorted` is a stable sort, as is
`List.insertionSort`). -/
def sorted_hits (searchResults : List (List RawHit)) : List AggHit :=
  List.insertionSort scoreLe ((aggregate searchResults).all_hits.map Prod.snd)

/-- `hits = sorted_hits[:k]`: the retrieval pass output before optional
re-ranking (with no re-ranker loaded this is the retrieval result). -/
def retrieve_hits (searchResults : List (List RawHit)) (k : Nat) : List AggHit :=
  (sorted_hits searchResults).take k

instance : IsTotal AggHit scoreLe :=
  ⟨fun a b => le_total a.combined_score b.combined_score⟩

instance : IsTrans AggHit scoreLe :=
  ⟨fun _ _ _ hab hbc => le_trans hab hbc⟩

/-- The sightings of an identity within a list of events: the
`(search_idx, raw hit)` pairs whose `hit_id` is `key`, in processing
order. -/
def eventSightings (evs : List (Nat × RawHit)) (key : String) : List (Nat × RawHit) :=
  evs.filter fun ev => hit_id ev.2 = key

/-- The sightings of an identity within one retrieval pass. -/
def sightingsOf (searchResults : List (List RawHit)) (key : String) : List (Nat × RawHit) :=
  eventSightings (flattenEvents searchResults) key

/-- Modelled from the spec's words (`found_in_searches`): the set of
0-indexed sub-query positions at which the identity was sighted, unioned
across sightings.  The code maintains no such per-hit set; this definition
exists to compare the spec against what the code records. -/
def found_in_searches_spec (searchResults : List (List RawHit)) (key : String) : List Nat :=
  PyStr.dedupKeepFirst ((sightingsOf searchResults key).map fun ev => ev.1)

/-- The search indices the aggregation actually records for an identity:
only the `search_order` entry, set at the first sighting and never
updated. -/
def recorded_search_indices (st : AggState) (key : String) : List Nat :=
  match alookup key st.search_order with
  | some i => [i]
  | none => []

/-- The fold invariant of `aggregate`, relating the aggregation state to the
events processed so far: keys are unique (merged, never duplicated); an
identity is present iff it was sighted; its `combined_score` is the minimum
of `distance + 0.01·index` over all its sightings; `search_order` holds the
first sighting's index; and `source_diversity` holds the sighting sources in
first-seen order without repetition. -/
def AggInv (evs : List (Nat × RawHit)) (st : AggState) : Prop :=
  ((st.all_hits.map Prod.fst).Nodup) ∧
  ∀ key : String,
    (alookup key st.all_hits = none ↔ eventSightings evs key = []) ∧
    (∀ a, alookup key st.all_hits = some a →
      ((∃ ev ∈ eventSightings evs key,
          a.combined_score = combined_score_of ev.1 ev.2.distance) ∧
        (∀ ev ∈ eventSightings evs key,
          a.combined_score ≤ combined_score_of ev.1 ev.2.distance))) ∧
    (alookup key st.search_order = (eventSightings evs key).head?.map fun ev => ev.1) ∧
    (alookup key st.source_diversity =
      if eventSightings evs key = [] then none
      else some (PyStr.dedupKeepFirst ((eventSightings evs key).map fun ev => ev.2.md.doc_id)))

/-!
## `backend/app/rag/adaptive_rag.py` — response evaluation and the loop
-/

/-- The fixed `negative_phrases` list of `_evaluate_response`. -/
def negative_phrases : List String :=
  ["could not find", "not found", "don't have", "not available",
   "no information", "unable to", "i'm sorry", "i apologize"]

/-- Result dict of `_evaluate_response`: the updated state keys. -/
structure EvalResult where
  is_relevant : Bool
  attempts : Nat
deriving Repr, DecidableEq

/-- `_evaluate_response` (lines 573-618): flag a negative response, compute
comprehensiveness of the clean query via the hybrid-search analysis
(`analyze_query` returns `decompose(query).is_comprehensive`), decide
relevance, and increment the attempts counter. -/
def evaluate_response (response query : String) (docs : List AggHit)
    (attempts max_attempts : Nat) : EvalResult :=
  let is_negative := negative_phrases.any fun p => strContains (lower response) p
  let has_docs := decide (docs.length > 0)
  let clean_query := QueryDecomposer.clean_of query
  let is_comprehensive := (QueryDecomposer.decompose clean_query).is_comprehensive
  let is_relevant :=
    if is_comprehensive then (!is_negative && has_docs) || decide (attempts ≥ max_attempts)
    else !is_negative || decide (attempts ≥ max_attempts)
  { is_relevant := is_relevant, attempts := attempts + 1 }

/-- `_should_refine` (lines 656-664): the conditional edge out of
`evaluate_response`, reading the already-incremented attempts counter. -/
def should_refine (is_relevant : Bool) (attempts max_attempts : Nat) : String :=
  if is_relevant || attempts ≥ max_attempts then "accept" else "refine"

/-- Statistics of one orchestrator run. -/
structure RunStats where
  genCalls : Nat
  refineCalls : Nat
  finalAttempts : Nat
deriving Repr, DecidableEq

/-- The `RETRIEVE → GENERATE → EVALUATE → {REFINE → RETRIEVE | FINALIZE}`
cycle of the compiled graph, entered with counter value `attempts`
(`_analyze_query` resets it to 0).  `evalRelevant n` is the `is_relevant`
value produced by the evaluator on the pass whose pre-increment counter is
`n` — left arbitrary, so the model covers every generator/evaluator
behaviour.  Each pass increments the counter by exactly one
(`_evaluate_response` returns `attempts + 1`) and `_should_refine` then
accepts iff `is_relevant or attempts >= max_attempts` on the incremented
counter.  Lean accepts the recursion because `max_attempts - attempts`
strictly decreases, which is exactly the termination argument. -/
def loopFrom (evalRelevant : Nat → Bool) (max_attempts attempts : Nat) : RunStats :=
  let is_relevant := evalRelevant attempts
  let attempts' := attempts + 1
  if h : is_relevant = true ∨ attempts' ≥ max_attempts then
    { genCalls := 1, refineCalls := 0, finalAttempts := attempts' }
  else
    let rest := loopFrom evalRelevant max_attempts attempts'
    { genCalls := rest.genCalls + 1, refineCalls := rest.refineCalls + 1,
      finalAttempts := rest.finalAttempts }
termination_by max_attempts - attempts
decreasing_by
  push_neg at h
  omega

end AdaptiveRag

/-!
## `backend/app/chat/conversation_context.py`

`ConversationContextManager`: turn history, context windows, and text-based
compaction.  The wall-clock `timestamp`/`created_at` fields and the
md5-generated conversation id are irrelevant to the checked properties; the
id is carried as an opaque string.
-/

namespace ConvContext

open PyStr

/-- `ConversationTurn` (sans timestamp). -/
structure ConversationTurn where
  role : String
  content : String
  turn_id : Nat
deriving Repr, DecidableEq

/-- The mutable state of one `ConversationContextManager`. -/
structure ContextManager where
  max_history_turns : Nat
  context_window_size : Nat
  conversation_id : String
  conversation_history : List ConversationTurn
  turn_counter : Nat
deriving Repr, DecidableEq

/-- A freshly constructed manager (`__init__`; the constructor defaults are
`max_history_turns=50`, `context_window_size=10`). -/
def initManager (max_history_turns context_window_size : Nat) (conversation_id : String) :
    ContextManager :=
  { max_history_turns := max_history_turns, context_window_size := context_window_size,
    conversation_id := conversation_id, conversation_history := [], turn_counter := 0 }

/-- `add_turn` (lines 70-95): build the turn with `turn_id = turn_counter`,
bump the counter, append, then trim to `history[-max_history_turns:]` when
the length exceeds the cap.  Note `pySliceLast` reproduces the Python slice,
including `[-0:]` being the whole list. -/
def add_turn (st : ContextManager) (role content : String) :
    ConversationTurn × ContextManager :=
  let turn : ConversationTurn :=
    { role := role, content := content, turn_id := st.turn_counter }
  let hist := st.conversation_history ++ [turn]
  let hist' :=
    if hist.length > st.max_history_turns then pySliceLast st.max_history_turns hist
    else hist
  (turn, { st with conversation_history := hist', turn_counter := st.turn_counter + 1 })

/-- A sequence of `add_turn` calls; returns the final state and the turns
created, in creation order. -/
def runTurns (st : ContextManager) : List (String × String) → ContextManager × List ConversationTurn
  | [] => (st, [])
  | rc :: rest =>
    let r := add_turn st rc.1 rc.2
    let q := runTurns r.2 rest
    (q.1, r.1 :: q.2)

/-- `"User" if turn.role == "user" else "Assistant"`. -/
def role_label (t : ConversationTurn) : String :=
  if t.role = "user" then "User" else "Assistant"

/-- `get_context_window` (lines 97-137), without the token-estimate logging. -/
def get_context_window (st : ContextManager) (include_system : Bool) : String :=
  if st.conversation_history.isEmpty then ""
  else
    let context_turns := pySliceLast st.context_window_size st.conversation_history
    let sys_lines :=
      if include_system then
        ["CONVERSATION CONTEXT:", "Conversation ID: " ++ st.conversation_id,
         "Total turns: " ++ toString st.conversation_history.length, ""]
      else []
    let lines := sys_lines ++
      (context_turns.map fun t => [role_label t ++ ":", t.content, ""]).flatten
    String.intercalate "\n" lines

/-- `get_recent_context` (lines 139-159). -/
def get_recent_context (st : ContextManager) (num_turns : Nat) : String :=
  if st.conversation_history.isEmpty then ""
  else
    let recent := pySliceLast num_turns st.conversation_history
    String.intercalate "\n"
      (recent.map fun t => role_label t ++ ": " ++ t.content.take 200 ++ "...")

/-- `[A-Z]`. -/
def isUpperAZ (c : Char) : Bool :=
  decide ('A' ≤ c) && decide (c ≤ 'Z')

/-- `[a-zA-Z]`. -/
def isLetterAZ (c : Char) : Bool :=
  isUpperAZ c || (decide ('a' ≤ c) && decide (c ≤ 'z'))

/-- Maximal `[a-zA-Z]*` run at the head. -/
def takeLetters : List Char → List Char × List Char
  | [] => ([], [])
  | c :: cs =>
    if isLetterAZ c then
      let p := takeLetters cs
      (c :: p.1, p.2)
    else ([], c :: cs)

/-- Maximal `\s*` run at the head. -/
def takeSpaces : List Char → List Char × List Char
  | [] => ([], [])
  | c :: cs =>
    if isSpace c then
      let p := takeSpaces cs
      (c :: p.1, p.2)
    else ([], c :: cs)

/-- One `[A-Z][a-zA-Z]*` segment at the head. -/
def capSegment : List Char → Option (List Char × List Char)
  | [] => none
  | c :: cs =>
    if isUpperAZ c then
      let p := takeLetters cs
      some (c :: p.1, p.2)
    else none

/-- Greedy collection of `(?:\s+[A-Z][a-zA-Z]*)` links.  Each link consumes
at least two characters, so fuel `= length` always suffices. -/
def collectLinks : Nat → List Char → List (List Char × List Char) × List Char
  | 0, s => ([], s)
  | fuel + 1, s =>
    let sp := takeSpaces s
    if sp.1.isEmpty then ([], s)
    else
      match capSegment sp.2 with
      | some (seg, rest2) =>
        let q := collectLinks fuel rest2
        ((sp.1, seg) :: q.1, q.2)
      | none => ([], s)

/-- Match of `\b[A-Z][a-zA-Z]*(?:\s+[A-Z][a-zA-Z]*)*\b` starting at the
current position (the left boundary is checked by the caller).  When the
trailing `\b` fails after the greedy match (the next character is a digit or
underscore), the engine backtracks by dropping the final `\s+seg` link — the
boundary then falls before whitespace and holds; shortening a letter run can
never restore the boundary, so with no link to drop there is no match. -/
def capMatchAt (s : List Char) : Option (List Char × List Char) :=
  match capSegment s with
  | none => none
  | some (seg0, rest0) =>
    let q := collectLinks rest0.length rest0
    if rightBoundOk q.2 then
      some (seg0 ++ (q.1.map fun p => p.1 ++ p.2).flatten, q.2)
    else
      match q.1.getLast? with
      | some lastLink =>
        some (seg0 ++ (q.1.dropLast.map fun p => p.1 ++ p.2).flatten,
          lastLink.1 ++ lastLink.2 ++ q.2)
      | none => none

/-- `re.findall` scanning for the capitalized-phrase pattern: try to match at
every position whose preceding character is not a word character; resume
after each match.  Fuel `= length` suffices since every step consumes at
least one character. -/
def findCapsFuel : Nat → Bool → List Char → List String
  | 0, _, _ => []
  | _ + 1, _, [] => []
  | fuel + 1, prevWord, c :: cs =>
    if !prevWord then
      match capMatchAt (c :: cs) with
      | some (m, rest) => String.mk m :: findCapsFuel fuel true rest
      | none => findCapsFuel fuel (isWordChar c) cs
    else findCapsFuel fuel (isWordChar c) cs

/-- `re.findall(r'\b[A-Z][a-zA-Z]*(?:\s+[A-Z][a-zA-Z]*)*\b', s)`. -/
def findCaps (s : List Char) : List String :=
  findCapsFuel s.length false s

/-- The entity filter of `_extract_key_entities`: keep items longer than two
characters whose lower-casing was not seen before. -/
def dedupEntities (seen : List String) : List String → List String
  | [] => []
  | x :: xs =>
    if lower x ∉ seen ∧ x.length > 2 then x :: dedupEntities (lower x :: seen) xs
    else dedupEntities seen xs

/-- `_extract_key_entities` (lines 212-236): capitalized phrases and quoted
terms of the first 500 characters, de-duplicated, top 5. -/
def extract_key_entities (text : String) : List String :=
  let t := text.take 500
  let entities := findCaps t.data
  let quoted := (scanQuoted t.data).1
  (dedupEntities [] (entities ++ quoted)).take 5

/-- The `[:300]`-with-ellipsis abbreviation of previous assistant responses. -/
def truncate300 (content : String) : String :=
  if content.length > 300 then content.take 300 ++ "..." else content.take 300

/-- `_compact_context` (lines 338-432) with its default
`max_recent_turns = 6` (`max_compact_chars` is never used by the code). -/
def compact_context (st : ContextManager) : String :=
  let max_recent_turns := 6
  if st.conversation_history.isEmpty then ""
  else if st.conversation_history.length ≤ max_recent_turns then
    get_context_window st false
  else
    let total := st.conversation_history.length
    let recent_start := total - max_recent_turns
    let older_turns := st.conversation_history.take recent_start
    let older5 := pySliceLast 5 older_turns
    let key_points := (older5.map fun t => extract_key_entities t.content).flatten
    let context_summaries := older5.enum.filterMap fun p =>
      if p.2.role = "assistant" ∧ p.2.content.length > 0 then
        some ("Previous response " ++ toString (p.1 + 1) ++ ": " ++ truncate300 p.2.content)
      else none
    let summary_parts :=
      if key_points.isEmpty ∧ context_summaries.isEmpty then []
      else
        let unique_points := dedupByLower key_points
        ["[PREVIOUS CONTEXT SUMMARY]"] ++
          (if unique_points.isEmpty then []
           else ["Key topics discussed: " ++ String.intercalate ", " (unique_points.take 8)]) ++
          context_summaries.take 3 ++ [""]
    let recent := st.conversation_history.drop recent_start
    let recent_lines := recent.enum.map fun p =>
      let content :=
        if p.1 + 1 ≠ recent.length ∧ p.2.content.length > 800 then p.2.content.take 800 ++ "..."
        else p.2.content
      role_label p.2 ++ ": " ++ content
    String.intercalate "\n" (summary_parts ++ ["[RECENT CONVERSATION]"] ++ recent_lines)

/-- The context bundle returned by `get_context_for_rag`. -/
structure RagContext where
  recent_context : String
  full_context : String
  conversation_id : String
  turn_count : Nat
deriving Repr, DecidableEq

/-- `get_context_for_rag` (lines 434-460) on the default text-based path
(`use_llm_compaction=False`). -/
def get_context_for_rag (st : ContextManager) (use_compact : Bool) : RagContext :=
  { recent_context := get_recent_context st 3,
    full_context := if use_compact then compact_context st else get_context_window st false,
    conversation_id := st.conversation_id,
    turn_count := st.conversation_history.length }

end ConvContext

/-!
## `backend/app/rag/rag_query.py` — `RAGQueryEngine.build_context`
-/

namespace RagQuery

open PyStr
open AdaptiveRag (AggHit ChunkMeta)

/-- `RAGQueryEngine._looks_like_command_request`. -/
def looks_like_command_request (q : String) : Bool :=
  let ql := lower q
  ["commands", "command", "steps", "step by step", "run", "execute", "install",
   "setup", "onboard"].any fun k => strContains ql k

/-- One entry of the `sources` list built by `build_context`. -/
structure SourceDesc where
  source : String
  /-- The `"section"` key of the source dict. -/
  section_name : String
  kind : String
  step_no : Nat
  has_code : Bool
deriving Repr, DecidableEq

/-- The context object returned by `build_context`. -/
structure BuildCtx where
  wants_commands : Bool
  context_text : String
  sources : List SourceDesc
deriving Repr, DecidableEq

/-- `src = f'{doc_id}:{start_line}-{end_line}'`. -/
def src_of (md : ChunkMeta) : String :=
  md.doc_id ++ ":" ++ toString md.start_line ++ "-" ++ toString md.end_line

/-- One context block of `build_context`: prefer the commands list when the
user asked for commands and the chunk has code. -/
def context_block (wants_commands : Bool) (h : AggHit) : String :=
  let md := h.md
  let src := src_of md
  if wants_commands && md.has_code then
    if md.commands.isEmpty then "Source: " ++ src ++ "\n" ++ h.text
    else
      "Source: " ++ src ++ "\nSection: " ++ md.section_path_str ++ "\n" ++
        String.intercalate "\n" (md.commands.map fun c => "- " ++ c)
  else "Source: " ++ src ++ "\n" ++ h.text

/-- `RAGQueryEngine.build_context(self, query, hits)` (lines 185-222): two
required positional parameters. -/
def build_context (query : String) (hits : List AggHit) : BuildCtx :=
  let wants_commands := looks_like_command_request query
  { wants_commands := wants_commands,
    context_text :=
      String.intercalate "\n\n---\n\n" (hits.map (context_block wants_commands)),
    sources := hits.map fun h =>
      { source := src_of h.md, section_name := h.md.section_path_str, kind := h.md.kind,
        step_no := h.md.step_no, has_code := h.md.has_code } }

end RagQuery

/-!
## `backend/app/rag/adaptive_rag.py` — `_generate_response` and the
outer exception handler of `query_sync`
-/

namespace AdaptiveRag

open PyStr

/-- A Python value passed as a positional argument at the
`self.rag_engine.build_context(...)` call site. -/
inductive PyVal where
  | str (s : String)
  | hitList (hs : List AggHit)
deriving Repr, DecidableEq

/-- Python call-binding semantics of `RAGQueryEngine.build_context(self,
query, hits)` (rag_query.py line 185): besides `self` the method declares
the two required positional parameters `query` and `hits`.  A call that
binds both runs the body; a call with fewer positional arguments raises
`TypeError` before the body is entered. -/
def call_build_context (args : List PyVal) : Except String RagQuery.BuildCtx :=
  match args with
  | [PyVal.str query, PyVal.hitList hits] => .ok (RagQuery.build_context query hits)
  | _ =>
    if args.length < 2 then
      .error "build_context() missing 1 required positional argument: 'hits'"
    else
      .error "build_context() given unexpected positional arguments"

/-- The fixed short-circuit response of `_generate_response` when no
documents were retrieved (line 502). -/
def no_docs_response : String :=
  "I could not find relevant information to answer your question. Please rephrase your query."

/-- The state keys `_generate_response` returns, plus the number of
`_call_llm` invocations the stage performed. -/
structure GenUpdate where
  llm_response : String
  sources : Option (List RagQuery.SourceDesc)
  llm_calls : Nat
deriving Repr, DecidableEq

/-- The fixed system prompt of `_generate_response` (lines 509-536;
literal text, leading indentation normalized). -/
def gen_system_prompt : String :=
  "You are a helpful and friendly technical assistant answering questions about runbooks and operational procedures.\n\nCRITICAL INSTRUCTIONS FOR FOLLOW-UP QUESTIONS:\nWhen the user asks about \"the #3 point\", \"third point\", \"the third item\", etc.:\n1. FIRST: Look at the CONVERSATION HISTORY section to find the numbered list from the previous response\n2. THEN: Find the specific item they're referring to (e.g., 3rd item in the list)\n3. FINALLY: Use the documentation provided to explain details about that specific item\n\nIMPORTANT INSTRUCTIONS:\n1. Answer ONLY using the provided documentation context below\n2. When you see conversation history, use it to understand pronouns and vague references\n3. DO NOT say \"the provided documentation does not contain\" if relevant docs are provided\n4. Be direct and helpful - cite sources when relevant\n5. For follow-up questions like \"explain about X point\" or \"explain about this\", refer back to previous answers to understand the context\n6. End every response with a friendly closing that invites further questions"

/-- The user prompt of `_generate_response` (lines 538-552; literal text,
leading indentation normalized), with the context text and the enriched
query interpolated. -/
def gen_user_prompt (context_text full_query : String) : String :=
  "DOCUMENTATION:\n" ++ context_text ++
    "\n\nCONVERSATION HISTORY AND CURRENT QUESTION:\n" ++ full_query ++
    "\n\nINSTRUCTIONS:\n- For follow-up questions about a numbered list (e.g., \"Explain about #3 point\"):\n  1. Look at the CONVERSATION HISTORY section above to find the previous numbered list\n  2. Identify the specific item being referenced\n  3. Use the documentation to provide details about that item\n- Answer the question directly using the documentation provided\n- If this is a follow-up question, use the conversation context to understand what topic or item is being referenced, then answer about it from the documentation\n- Always end your response by asking if there's anything else the user needs help with\n- Be conversational and friendly in tone"

/-- `_generate_response` (lines 493-571).  `llm prompt system` models
`_call_llm`.  With no retrieved documents the stage short-circuits to the
fixed response without an LLM call.  Otherwise it evaluates
`self.rag_engine.build_context(docs)` — a call that passes the single
positional argument `docs`, so the `TypeError` raised by the call binding
propagates out of the node (the call is outside the stage's `try` block).
The success continuation is the faithful body for a completed call. -/
def generate_response (llm : String → String → String) (docs : List AggHit)
    (conversation_context : String) : Except String GenUpdate :=
  if docs.isEmpty then
    .ok { llm_response := no_docs_response, sources := none, llm_calls := 0 }
  else
    match call_build_context [PyVal.hitList docs] with
    | .error msg => .error msg
    | .ok context =>
      let full_query := conversation_context
      let user_prompt := gen_user_prompt context.context_text full_query
      .ok { llm_response := llm user_prompt gen_system_prompt,
            sources := some context.sources, llm_calls := 1 }

/-- The fields of the result dict of `query_sync`. -/
structure QueryResult where
  response : String
  sources : List RagQuery.SourceDesc
  attempts : Nat
  error : Option String
deriving Repr, DecidableEq

/-- The `except` branch of `query_sync` (lines 755-762): an exception
propagating out of `graph.invoke` is caught and becomes an explicit error
response. -/
def query_sync_on_raise (msg : String) : QueryResult :=
  { response := "Error processing query: " ++ msg, sources := [], attempts := 1,
    error := some msg }

/-- The run from the generate stage onwards: if the generate node raises,
`graph.invoke` propagates the exception and `query_sync` answers through its
handler; otherwise the run continues with the evaluate/refine stages,
abstracted by the arbitrary continuation `continue_run`. -/
def run_from_generate (llm : String → String → String) (docs : List AggHit)
    (conversation_context : String) (continue_run : GenUpdate → QueryResult) : QueryResult :=
  match generate_response llm docs conversation_context with
  | .error msg => query_sync_on_raise msg
  | .ok upd => continue_run upd

end AdaptiveRag

/-!
## Concrete sample data used by witnesses and counterexamples
-/

/-- A sample decoded chunk metadata record. -/
def demoMeta : AdaptiveRag.ChunkMeta :=
  { doc_id := "docs/analytics_api.json", section_path := ["API", "Endpoints"],
    section_path_str := "API > Endpoints", kind := "section", step_no := 0,
    has_code := false, start_line := 1, end_line := 20, commands := [] }

/-- A sample raw hit. -/
def demoRaw : AdaptiveRag.RawHit :=
  { text := "GET /analytics", md := demoMeta, distance := 1/10 }

/-- A sample aggregated hit. -/
def demoAgg : AdaptiveRag.AggHit :=
  AdaptiveRag.mkAggHit demoRaw (AdaptiveRag.combined_score_of 0 demoRaw.distance)

/-- Metadata of a second document. -/
def demoMetaB : AdaptiveRag.ChunkMeta :=
  { doc_id := "docs/users_api.json", section_path := ["API", "Users"],
    section_path_str := "API > Users", kind := "section", step_no := 0,
    has_code := false, start_line := 1, end_line := 15, commands := [] }

/-- Document B hit: surfaced by sub-query #1 at distance 0.08. -/
def demoRawB : AdaptiveRag.RawHit :=
  { text := "GET /users", md := demoMetaB, distance := 2/25 }

/-- The §8 scenario corpus: document A (`demoRaw`) matches sub-query #0 at
distance 0.10, document B matches sub-query #1 at distance 0.08. -/
def demoScenario : List (List AdaptiveRag.RawHit) :=
  [[demoRaw], [demoRawB]]

/-- A second sighting of the same identity as `demoRaw` (same doc and
section path), at distance 0.20. -/
def demoDup2 : AdaptiveRag.RawHit :=
  { text := "GET /analytics", md := demoMeta, distance := 1/5 }

/-- A retrieval pass in which the identity of `demoRaw` is returned by the
sub-queries at positions 0 and 1 with distances 0.10 < 0.20. -/
def demoDupInputs : List (List AdaptiveRag.RawHit) :=
  [[demoRaw], [demoDup2]]

/-- A conversation with three turns (inside the 6-turn window). -/
def demoConv3 : ConvContext.ContextManager :=
  { max_history_turns := 50, context_window_size := 10, conversation_id := "c3",
    conversation_history :=
      [{ role := "user", content := "hello", turn_id := 0 },
       { role := "assistant", content := "1. alpha\n2. beta\n3. gamma", turn_id := 1 },
       { role := "user", content := "explain the third point", turn_id := 2 }],
    turn_counter := 3 }

/-- A long assistant response (801 characters). -/
def demoLong : String :=
  String.mk (List.replicate 801 'x')

/-- A conversation with seven turns; the turn at position 2 of the recent
window (not the last one) is longer than 800 characters. -/
def demoConv7 : ConvContext.ContextManager :=
  { max_history_turns := 50, context_window_size := 10, conversation_id := "c7",
    conversation_history :=
      [{ role := "user", content := "q1", turn_id := 0 },
       { role := "assistant", content := "a1", turn_id := 1 },
       { role := "user", content := "q2", turn_id := 2 },
       { role := "assistant", content := demoLong, turn_id := 3 },
       { role := "user", content := "q3", turn_id := 4 },
       { role := "assistant", content := "a3", turn_id := 5 },
       { role := "user", content := "q4", turn_id := 6 }],
    turn_counter := 7 }

/-!
## Theorems for the checked claims
-/

/-- **C2.** For every response string, retrieved-docs list, attempts,
max_attempts and query (whose hybrid-search analysis supplies the
comprehensiveness flag), `_evaluate_response` flags `is_negative` iff the
lower-cased response contains one of the fixed phrases, accepts iff the
response is non-negative (and, for comprehensive queries, some document was
retrieved), with `attempts >= max_attempts` forcing acceptance; the counter
comes back incremented by one.  In particular the response
`"I could not find that information"` with a retrieved document, the
comprehensive query `"list all endpoints"`, and `attempts = 1`,
`max_attempts = 3` is rejected, while the same inputs with `attempts = 3`
are accepted. -/
theorem evaluate_response_characterization :
    (∀ (response query : String) (docs : List AdaptiveRag.AggHit) (attempts max_attempts : Nat),
      ((AdaptiveRag.evaluate_response response query docs attempts max_attempts).is_relevant = true ↔
        ((¬ ∃ p ∈ AdaptiveRag.negative_phrases, PyStr.strContains (PyStr.lower response) p = true) ∧
          ((QueryDecomposer.decompose (QueryDecomposer.clean_of query)).is_comprehensive = true →
            docs ≠ []) ∨
          attempts ≥ max_attempts)) ∧
      (AdaptiveRag.evaluate_response response query docs attempts max_attempts).attempts =
        attempts + 1) ∧
    AdaptiveRag.evaluate_response "I could not find that information" "list all endpoints"
        [demoAgg] 1 3 =
      { is_relevant := false, attempts := 2 } ∧
    AdaptiveRag.evaluate_response "I could not find that information" "list all endpoints"
        [demoAgg] 3 3 =
      { is_relevant := true, attempts := 4 } := by
  refine ⟨fun response query docs attempts max_attempts => ⟨?_, rfl⟩, by decide, by decide⟩
  simp only [AdaptiveRag.evaluate_response, List.any_eq_true, decide_eq_true_eq]
  rcases h : (QueryDecomposer.decompose (QueryDecomposer.clean_of query)).is_comprehensive <;>
    simp [h, Bool.or_eq_true, Bool.and_eq_true, Bool.not_eq_true', List.any_eq_true,
      decide_eq_true_eq, List.length_pos_iff_ne_nil]

/-- **C9.** With an empty `retrieved_docs` list the generate stage returns
the fixed "could not find relevant information" response without calling the
LLM: the result records zero `_call_llm` invocations and does not depend on
the LLM at all; the only `_call_llm` site of the stage is in the branch
guarded by a non-empty hit list. -/
theorem generate_response_empty_docs :
    (∀ (llm : String → String → String) (cc : String),
      AdaptiveRag.generate_response llm [] cc =
        .ok { llm_response := AdaptiveRag.no_docs_response, sources := none, llm_calls := 0 }) ∧
    (∀ (llm llm' : String → String → String) (cc : String),
      AdaptiveRag.generate_response llm [] cc = AdaptiveRag.generate_response llm' [] cc) := by
  exact ⟨fun llm cc => rfl, fun llm llm' cc => rfl⟩

/-- **C10.** With a non-empty `retrieved_docs` list, `_generate_response`
evaluates `self.rag_engine.build_context(docs)` — one positional argument
for a method requiring `query` and `hits` — so a `TypeError` is raised
before the stage's LLM call; the success path of the stage is unreachable,
and whatever the rest of the pipeline would do, the run completes through
the outer exception handler of `query_sync` with its
"Error processing query: ..." response. -/
theorem generate_response_nonempty_docs_raises (llm : String → String → String)
    (docs : List AdaptiveRag.AggHit) (cc : String) (h : docs ≠ []) :
    AdaptiveRag.generate_response llm docs cc =
      .error "build_context() missing 1 required positional argument: 'hits'" ∧
    (∀ upd, AdaptiveRag.generate_response llm docs cc ≠ .ok upd) ∧
    (∀ continue_run, AdaptiveRag.run_from_generate llm docs cc continue_run =
      AdaptiveRag.query_sync_on_raise
        "build_context() missing 1 required positional argument: 'hits'") := by
  have hne : docs.isEmpty = false := by
    cases docs with
    | nil => exact absurd rfl h
    | cons a l => rfl
  have hgen : AdaptiveRag.generate_response llm docs cc =
      .error "build_context() missing 1 required positional argument: 'hits'" := by
    cases docs with
    | nil => exact absurd rfl h
    | cons a l => rfl
  refine ⟨hgen, fun upd hupd => by rw [hgen] at hupd; exact Except.noConfusion hupd, ?_⟩
  intro continue_run
  unfold AdaptiveRag.run_from_generate
  rw [hgen]

/-- Witness for C10 at a concrete non-empty retrieval. -/
theorem generate_response_nonempty_docs_raises_witness :
    [demoAgg] ≠ ([] : List AdaptiveRag.AggHit) ∧
    AdaptiveRag.generate_response (fun _ _ => "ok") [demoAgg] "ctx" =
      .error "build_context() missing 1 required positional argument: 'hits'" :=
  ⟨by decide,
    (generate_response_nonempty_docs_raises (fun _ _ => "ok") [demoAgg] "ctx" (by decide)).1⟩

/-- Per-pass statistics of the refine loop, by induction on the remaining
fuel `max_attempts - attempts`: the final counter is the entry counter plus
one per generate-evaluate pass, it stays within `max_attempts` when the loop
is entered below the cap, and there is exactly one refinement less than
there are passes. -/
theorem loopFrom_stats (evalRelevant : Nat → Bool) (max_attempts : Nat) :
    ∀ fuel attempts : Nat, max_attempts - attempts ≤ fuel →
      (AdaptiveRag.loopFrom evalRelevant max_attempts attempts).finalAttempts =
        attempts + (AdaptiveRag.loopFrom evalRelevant max_attempts attempts).genCalls ∧
      (attempts < max_attempts →
        (AdaptiveRag.loopFrom evalRelevant max_attempts attempts).finalAttempts ≤ max_attempts) ∧
      (AdaptiveRag.loopFrom evalRelevant max_attempts attempts).refineCalls + 1 =
        (AdaptiveRag.loopFrom evalRelevant max_attempts attempts).genCalls := by
  intro fuel
  induction fuel with
  | zero =>
    intro attempts hf
    have hacc : evalRelevant attempts = true ∨ attempts + 1 ≥ max_attempts :=
      Or.inr (by omega)
    rw [AdaptiveRag.loopFrom, dif_pos hacc]
    exact ⟨rfl, fun hlt => absurd hlt (by omega), rfl⟩
  | succ n ih =>
    intro attempts hf
    by_cases hacc : evalRelevant attempts = true ∨ attempts + 1 ≥ max_attempts
    · rw [AdaptiveRag.loopFrom, dif_pos hacc]
      exact ⟨rfl, fun hlt => by show attempts + 1 ≤ max_attempts; omega, rfl⟩
    · rw [AdaptiveRag.loopFrom, dif_neg hacc]
      push_neg at hacc
      obtain ⟨hrel, hlt'⟩ := hacc
      obtain ⟨e1, e2, e3⟩ := ih (attempts + 1) (by omega)
      have h2 := e2 (by omega)
      refine ⟨?_, fun _ => ?_, ?_⟩
      · show (AdaptiveRag.loopFrom evalRelevant max_attempts (attempts + 1)).finalAttempts =
          attempts + ((AdaptiveRag.loopFrom evalRelevant max_attempts (attempts + 1)).genCalls + 1)
        omega
      · show (AdaptiveRag.loopFrom evalRelevant max_attempts (attempts + 1)).finalAttempts ≤
          max_attempts
        omega
      · show (AdaptiveRag.loopFrom evalRelevant max_attempts (attempts + 1)).refineCalls + 1 + 1 =
          (AdaptiveRag.loopFrom evalRelevant max_attempts (attempts + 1)).genCalls + 1
        omega

/-- **C1.** For every `max_attempts ≥ 1` and arbitrary generator/evaluator
behaviour (`evalRelevant`, covering an always-rejecting evaluator), the
orchestrator loop — which Lean accepts as terminating on the strictly
decreasing measure `max_attempts - attempts` — performs at most
`max_attempts` generate-evaluate passes: the final counter equals the number
of passes (the evaluator increments it by exactly one each time), there are
at most `max_attempts` answer-generation calls and exactly one refinement
call fewer than passes, hence at most `max_attempts - 1`; and
`_should_refine` accepts exactly when `is_relevant` holds or the incremented
counter has reached `max_attempts`. -/
theorem orchestrator_loop_bounded (evalRelevant : Nat → Bool) (max_attempts : Nat)
    (h : 1 ≤ max_attempts) :
    (AdaptiveRag.loopFrom evalRelevant max_attempts 0).genCalls ≤ max_attempts ∧
    (AdaptiveRag.loopFrom evalRelevant max_attempts 0).finalAttempts =
      (AdaptiveRag.loopFrom evalRelevant max_attempts 0).genCalls ∧
    (AdaptiveRag.loopFrom evalRelevant max_attempts 0).refineCalls =
      (AdaptiveRag.loopFrom evalRelevant max_attempts 0).genCalls - 1 ∧
    (AdaptiveRag.loopFrom evalRelevant max_attempts 0).refineCalls ≤ max_attempts - 1 ∧
    (∀ (r q : String) (d : List AdaptiveRag.AggHit) (a m : Nat),
      (AdaptiveRag.evaluate_response r q d a m).attempts = a + 1) ∧
    (∀ (b : Bool) (a : Nat),
      AdaptiveRag.should_refine b a max_attempts = "accept" ↔ (b = true ∨ a ≥ max_attempts)) := by
  obtain ⟨e1, e2, e3⟩ := loopFrom_stats evalRelevant max_attempts max_attempts 0 (by omega)
  have hfin := e2 (by omega)
  refine ⟨by omega, by omega, by omega, by omega, fun r q d a m => rfl, fun b a => ?_⟩
  unfold AdaptiveRag.should_refine
  by_cases hb : b = true
  · subst hb
    simp
  · have hb' : b = false := by
      cases b
      · rfl
      · exact absurd rfl hb
    subst hb'
    by_cases ha : a ≥ max_attempts
    · simp [ha]
    · simp [ha]

/-- Witness for C1: `max_attempts = 3` with an evaluator that always
rejects. -/
theorem orchestrator_loop_bounded_witness :
    (1 ≤ 3) ∧
    ((AdaptiveRag.loopFrom (fun _ => false) 3 0).genCalls ≤ 3 ∧
      (AdaptiveRag.loopFrom (fun _ => false) 3 0).finalAttempts =
        (AdaptiveRag.loopFrom (fun _ => false) 3 0).genCalls ∧
      (AdaptiveRag.loopFrom (fun _ => false) 3 0).refineCalls =
        (AdaptiveRag.loopFrom (fun _ => false) 3 0).genCalls - 1 ∧
      (AdaptiveRag.loopFrom (fun _ => false) 3 0).refineCalls ≤ 3 - 1 ∧
      (∀ (r q : String) (d : List AdaptiveRag.AggHit) (a m : Nat),
        (AdaptiveRag.evaluate_response r q d a m).attempts = a + 1) ∧
      (∀ (b : Bool) (a : Nat),
        AdaptiveRag.should_refine b a 3 = "accept" ↔ (b = true ∨ a ≥ 3))) :=
  ⟨by decide, orchestrator_loop_bounded (fun _ => false) 3 (by decide)⟩

/-- **C6 counterexample.** The query `"what are the endpoints"` contains the
indicator `"what are"` (which the claim lists among the comprehensive
indicators) and matches no procedural indicator, yet `detect_intent`
classifies it as `'explanatory'`, not `'comprehensive'`: in the code
`\bwhat (is|are)\b` belongs to the explanatory rule and the comprehensive
rule is only `\ball\b|\blist\b|\bshow\b|\benumerate\b`. -/
theorem detect_intent_what_are_counterexample :
    PyStr.reWord "what are" (PyStr.lower "what are the endpoints") = true ∧
    QueryDecomposer.procedural_hit (PyStr.lower "what are the endpoints") = false ∧
    QueryDecomposer.detect_intent "what are the endpoints" = "explanatory" ∧
    QueryDecomposer.detect_intent "what are the endpoints" ≠ "comprehensive" := by
  refine ⟨by decide, by decide, by decide, by decide⟩

/-- Helper: the full case analysis of the `detect_intent` rule cascade. -/
theorem detect_intent_cases (q : String) :
    (QueryDecomposer.detect_intent q = "procedural" ↔
      QueryDecomposer.procedural_hit (PyStr.lower q) = true) ∧
    (QueryDecomposer.detect_intent q = "comprehensive" ↔
      QueryDecomposer.procedural_hit (PyStr.lower q) = false ∧
      QueryDecomposer.comprehensive_hit (PyStr.lower q) = true) ∧
    (QueryDecomposer.detect_intent q = "explanatory" ↔
      QueryDecomposer.procedural_hit (PyStr.lower q) = false ∧
      QueryDecomposer.comprehensive_hit (PyStr.lower q) = false ∧
      (QueryDecomposer.why_explain_hit (PyStr.lower q) = true ∨
        QueryDecomposer.what_is_are_hit (PyStr.lower q) = true)) ∧
    (QueryDecomposer.detect_intent q = "specific" ↔
      QueryDecomposer.procedural_hit (PyStr.lower q) = false ∧
      QueryDecomposer.comprehensive_hit (PyStr.lower q) = false ∧
      QueryDecomposer.why_explain_hit (PyStr.lower q) = false ∧
      QueryDecomposer.what_is_are_hit (PyStr.lower q) = false ∧
      QueryDecomposer.find_get_fetch_hit (PyStr.lower q) = true) ∧
    (QueryDecomposer.detect_intent q = "general" ↔
      QueryDecomposer.procedural_hit (PyStr.lower q) = false ∧
      QueryDecomposer.comprehensive_hit (PyStr.lower q) = false ∧
      QueryDecomposer.why_explain_hit (PyStr.lower q) = false ∧
      QueryDecomposer.what_is_are_hit (PyStr.lower q) = false ∧
      QueryDecomposer.find_get_fetch_hit (PyStr.lower q) = false) := by
  cases h1 : QueryDecomposer.procedural_hit (PyStr.lower q) <;>
    cases h2 : QueryDecomposer.comprehensive_hit (PyStr.lower q) <;>
    cases h3 : QueryDecomposer.why_explain_hit (PyStr.lower q) <;>
    cases h4 : QueryDecomposer.what_is_are_hit (PyStr.lower q) <;>
    cases h5 : QueryDecomposer.find_get_fetch_hit (PyStr.lower q) <;>
    simp [QueryDecomposer.detect_intent, h1, h2, h3, h4, h5]

/-- **C6 (amended).** `detect_intent` applies its rules in order on the
query with the first match winning: procedural (`"how to"`, `"steps"`,
`"procedure"`-prefix), then comprehensive (`"all"`, `"list"`, `"show"`,
`"enumerate"` — *not* `"what are"`), then explanatory (`"why"`,
`"explain"`, `"what is"`, `"what are"`), then specific (`"find"`, `"get"`,
`"fetch"`), else general.  In particular a query containing `"what are"`
and matching no procedural and no comprehensive indicator is classified
`'explanatory'`. -/
theorem detect_intent_cascade :
    (∀ q : String,
      (QueryDecomposer.detect_intent q = "procedural" ↔
        QueryDecomposer.procedural_hit (PyStr.lower q) = true) ∧
      (QueryDecomposer.detect_intent q = "comprehensive" ↔
        QueryDecomposer.procedural_hit (PyStr.lower q) = false ∧
        QueryDecomposer.comprehensive_hit (PyStr.lower q) = true) ∧
      (QueryDecomposer.detect_intent q = "explanatory" ↔
        QueryDecomposer.procedural_hit (PyStr.lower q) = false ∧
        QueryDecomposer.comprehensive_hit (PyStr.lower q) = false ∧
        (QueryDecomposer.why_explain_hit (PyStr.lower q) = true ∨
          QueryDecomposer.what_is_are_hit (PyStr.lower q) = true)) ∧
      (QueryDecomposer.detect_intent q = "specific" ↔
        QueryDecomposer.procedural_hit (PyStr.lower q) = false ∧
        QueryDecomposer.comprehensive_hit (PyStr.lower q) = false ∧
        QueryDecomposer.why_explain_hit (PyStr.lower q) = false ∧
        QueryDecomposer.what_is_are_hit (PyStr.lower q) = false ∧
        QueryDecomposer.find_get_fetch_hit (PyStr.lower q) = true) ∧
      (QueryDecomposer.detect_intent q = "general" ↔
        QueryDecomposer.procedural_hit (PyStr.lower q) = false ∧
        QueryDecomposer.comprehensive_hit (PyStr.lower q) = false ∧
        QueryDecomposer.why_explain_hit (PyStr.lower q) = false ∧
        QueryDecomposer.what_is_are_hit (PyStr.lower q) = false ∧
        QueryDecomposer.find_get_fetch_hit (PyStr.lower q) = false)) ∧
    (∀ q : String, QueryDecomposer.procedural_hit (PyStr.lower q) = false →
      QueryDecomposer.comprehensive_hit (PyStr.lower q) = false →
      PyStr.reWord "what are" (PyStr.lower q) = true →
      QueryDecomposer.detect_intent q = "explanatory") := by
  refine ⟨fun q => detect_intent_cases q, fun q h1 h2 h3 => ?_⟩
  exact ((detect_intent_cases q).2.2.1).mpr
    ⟨h1, h2, Or.inr (by simp [QueryDecomposer.what_is_are_hit, h3])⟩

/-- Witness for C6 (amended) at `"what are the endpoints"`. -/
theorem detect_intent_cascade_witness :
    QueryDecomposer.procedural_hit (PyStr.lower "what are the endpoints") = false ∧
    QueryDecomposer.comprehensive_hit (PyStr.lower "what are the endpoints") = false ∧
    PyStr.reWord "what are" (PyStr.lower "what are the endpoints") = true ∧
    QueryDecomposer.detect_intent "what are the endpoints" = "explanatory" :=
  ⟨by decide, by decide, by decide,
    detect_intent_cascade.2 "what are the endpoints" (by decide) (by decide) (by decide)⟩

/-- **C5 counterexample.** `"fetch user token"` is not comprehensive and its
intent is `'specific'`, yet the decomposition is *not* the cleaned query
followed by individual terms and adjacent pairs: element #0 is the key term
`"fetch"`, not the original query; the skip-one pair `"fetch token"` and the
3-term window are present; and the list is not de-duplicated (the full join
`"fetch user token"` appears twice, as strategy 3 and again as the 3-term
window). -/
theorem decompose_specific_counterexample :
    (QueryDecomposer.decompose "fetch user token").is_comprehensive = false ∧
    (QueryDecomposer.decompose "fetch user token").intent = "specific" ∧
    (QueryDecomposer.decompose "fetch user token").decomposed =
      ["fetch", "user", "token", "fetch user", "user token", "fetch user token",
       "fetch token", "fetch user token"] ∧
    (QueryDecomposer.decompose "fetch user token").decomposed.head? ≠
      some (QueryDecomposer.decompose "fetch user token").original ∧
    "fetch token" ∈ (QueryDecomposer.decompose "fetch user token").decomposed ∧
    ((QueryDecomposer.decompose "fetch user token").decomposed.count "fetch user token") = 2 := by
  refine ⟨by decide, by decide, by decide, by decide, by decide, by decide⟩

/-- Helper: the index loop of strategy 2 of `_generate_sub_queries`
enumerates exactly the adjacent pairs. -/
theorem range_map_adjacent (kt : List String) :
    (List.range (kt.length - 1)).map
      (fun i => kt.getD i "" ++ " " ++ kt.getD (i + 1) "") =
    QueryDecomposer.adjacentPairs kt := by
  induction kt with
  | nil => rfl
  | cons x kt' ih =>
    cases kt' with
    | nil => rfl
    | cons y rest =>
      have hlen : (x :: y :: rest).length - 1 = ((y :: rest).length - 1) + 1 := by
        simp
      rw [hlen, List.range_succ_eq_map, List.map_cons, List.map_map]
      have harg :
          ((fun i => (x :: y :: rest).getD i "" ++ " " ++ (x :: y :: rest).getD (i + 1) "") ∘
            Nat.succ) =
          fun i => (y :: rest).getD i "" ++ " " ++ (y :: rest).getD (i + 1) "" := by
        funext i
        simp [Function.comp, List.getD_cons_succ]
      rw [harg, ih]
      simp [QueryDecomposer.adjacentPairs]

/-- Helper: the index loop of strategy 4 of `_generate_sub_queries`
enumerates exactly the skip-one pairs. -/
theorem range_map_skip (kt : List String) :
    (List.range (kt.length - 2)).map
      (fun i => kt.getD i "" ++ " " ++ kt.getD (i + 2) "") =
    QueryDecomposer.skipPairs kt := by
  induction kt with
  | nil => rfl
  | cons x kt' ih =>
    cases kt' with
    | nil => rfl
    | cons y rest =>
      cases rest with
      | nil => rfl
      | cons z rest' =>
        have hlen : (x :: y :: z :: rest').length - 2 = ((y :: z :: rest').length - 2) + 1 := by
          simp
        rw [hlen, List.range_succ_eq_map, List.map_cons, List.map_map]
        have harg :
            ((fun i => (x :: y :: z :: rest').getD i "" ++ " " ++
                (x :: y :: z :: rest').getD (i + 2) "") ∘ Nat.succ) =
            fun i => (y :: z :: rest').getD i "" ++ " " ++ (y :: z :: rest').getD (i + 2) "" := by
          funext i
          have h2 : i + 1 + 2 = (i + 2) + 1 := by omega
          simp [Function.comp, h2, List.getD_cons_succ]
        rw [harg, ih]
        simp [QueryDecomposer.skipPairs]

/-- Helper: the index loop of strategy 5 of `_generate_sub_queries`
enumerates exactly the 3-term windows. -/
theorem range_map_triple (kt : List String) :
    (List.range (kt.length - 2)).map
      (fun i => kt.getD i "" ++ " " ++ kt.getD (i + 1) "" ++ " " ++ kt.getD (i + 2) "") =
    QueryDecomposer.tripleWindows kt := by
  induction kt with
  | nil => rfl
  | cons x kt' ih =>
    cases kt' with
    | nil => rfl
    | cons y rest =>
      cases rest with
      | nil => rfl
      | cons z rest' =>
        have hlen : (x :: y :: z :: rest').length - 2 = ((y :: z :: rest').length - 2) + 1 := by
          simp
        rw [hlen, List.range_succ_eq_map, List.map_cons, List.map_map]
        have harg :
            ((fun i => (x :: y :: z :: rest').getD i "" ++ " " ++
                (x :: y :: z :: rest').getD (i + 1) "" ++ " " ++
                (x :: y :: z :: rest').getD (i + 2) "") ∘ Nat.succ) =
            fun i => (y :: z :: rest').getD i "" ++ " " ++ (y :: z :: rest').getD (i + 1) "" ++
              " " ++ (y :: z :: rest').getD (i + 2) "" := by
          funext i
          have h2 : i + 1 + 2 = (i + 2) + 1 := by omega
          simp [Function.comp, h2, List.getD_cons_succ]
        rw [harg, ih]
        simp [QueryDecomposer.tripleWindows]

/-- Helper: `_generate_sub_queries` on a non-empty term list is exactly the
five strategies in order: individual terms, adjacent pairs, the full join
(when more than one term), skip-one pairs, 3-term windows. -/
theorem generate_sub_queries_eq (kt : List String) (h : kt ≠ []) :
    QueryDecomposer.generate_sub_queries kt =
      kt ++ QueryDecomposer.adjacentPairs kt ++
        (if 1 < kt.length then [String.intercalate " " kt] else []) ++
        QueryDecomposer.skipPairs kt ++ QueryDecomposer.tripleWindows kt := by
  have hne : kt.isEmpty = false := by
    cases kt with
    | nil => exact absurd rfl h
    | cons a l => rfl
  simp only [QueryDecomposer.generate_sub_queries, hne, Bool.false_eq_true, if_false]
  rw [range_map_adjacent, range_map_skip, range_map_triple]

/-- **C5 (amended).** For every query that is not comprehensive and whose
intent is not comprehensive/procedural/explanatory, `decompose` returns
`_generate_sub_queries(key_terms)` *unchanged* (falling back to the cleaned
query only when no key terms were extracted): the cleaned original query is
*not* prepended, the generated list consists of the individual terms, the
adjacent pairs, the full join, the skip-one pairs *and* the 3-term windows,
and no de-duplication and no 8-entry cap are applied on this path. -/
theorem decompose_specific_path (q : String)
    (hcomp : QueryDecomposer.is_comprehensive_query (QueryDecomposer.clean_of q) = false)
    (h1 : QueryDecomposer.detect_intent (QueryDecomposer.clean_of q) ≠ "comprehensive")
    (h2 : QueryDecomposer.detect_intent (QueryDecomposer.clean_of q) ≠ "procedural")
    (h3 : QueryDecomposer.detect_intent (QueryDecomposer.clean_of q) ≠ "explanatory") :
    ((QueryDecomposer.decompose q).decomposed =
      if (QueryDecomposer.generate_sub_queries
            (QueryDecomposer.extract_key_terms (QueryDecomposer.clean_of q))).isEmpty
      then [QueryDecomposer.clean_of q]
      else QueryDecomposer.generate_sub_queries
            (QueryDecomposer.extract_key_terms (QueryDecomposer.clean_of q))) ∧
    (∀ kt : List String, kt ≠ [] →
      QueryDecomposer.generate_sub_queries kt =
        kt ++ QueryDecomposer.adjacentPairs kt ++
          (if 1 < kt.length then [String.intercalate " " kt] else []) ++
          QueryDecomposer.skipPairs kt ++ QueryDecomposer.tripleWindows kt) := by
  refine ⟨?_, fun kt h => generate_sub_queries_eq kt h⟩
  simp [QueryDecomposer.decompose, hcomp, h1, h2, h3]

/-- Witness for C5 (amended) at `"fetch user token"`. -/
theorem decompose_specific_path_witness :
    QueryDecomposer.is_comprehensive_query (QueryDecomposer.clean_of "fetch user token") = false ∧
    QueryDecomposer.detect_intent (QueryDecomposer.clean_of "fetch user token") ≠ "comprehensive" ∧
    QueryDecomposer.detect_intent (QueryDecomposer.clean_of "fetch user token") ≠ "procedural" ∧
    QueryDecomposer.detect_intent (QueryDecomposer.clean_of "fetch user token") ≠ "explanatory" ∧
    (QueryDecomposer.decompose "fetch user token").decomposed =
      QueryDecomposer.generate_sub_queries
        (QueryDecomposer.extract_key_terms (QueryDecomposer.clean_of "fetch user token")) :=
  ⟨by decide, by decide, by decide, by decide, by
    have h := (decompose_specific_path "fetch user token" (by decide) (by decide) (by decide)
      (by decide)).1
    rw [h]
    decide⟩

/-- Helper: a Python `[-k:]` slice is a suffix of the list. -/
theorem pySliceLast_suffix (k : Nat) (l : List α) : PyStr.pySliceLast k l <:+ l := by
  unfold PyStr.pySliceLast
  split
  · exact List.suffix_refl l
  · exact List.drop_suffix _ _

/-- Helper: single-step properties of `add_turn`: the new turn carries the
current counter, the counter is bumped, the cap is unchanged, the retained
history is a suffix of old-history-plus-new-turn, and (for a positive cap)
the length follows `min (old + 1) cap`. -/
theorem add_turn_spec (st : ConvContext.ContextManager) (role content : String) :
    (ConvContext.add_turn st role content).1.turn_id = st.turn_counter ∧
    (ConvContext.add_turn st role content).2.turn_counter = st.turn_counter + 1 ∧
    (ConvContext.add_turn st role content).2.max_history_turns = st.max_history_turns ∧
    ((ConvContext.add_turn st role content).2.conversation_history <:+
      (st.conversation_history ++ [(ConvContext.add_turn st role content).1])) ∧
    (1 ≤ st.max_history_turns → st.conversation_history.length ≤ st.max_history_turns →
      (ConvContext.add_turn st role content).2.conversation_history.length =
        min (st.conversation_history.length + 1) st.max_history_turns) := by
  refine ⟨rfl, rfl, rfl, ?_, ?_⟩
  · simp only [ConvContext.add_turn]
    split
    · exact pySliceLast_suffix _ _
    · exact List.suffix_refl _
  · intro hm hl
    simp only [ConvContext.add_turn]
    split
    · rename_i hgt
      unfold PyStr.pySliceLast
      rw [if_neg (by omega)]
      rw [List.length_drop]
      simp only [List.length_append, List.length_cons, List.length_nil] at hgt ⊢
      omega
    · rename_i hle
      simp only [List.length_append, List.length_cons, List.length_nil] at hle ⊢
      omega

/-- Helper: invariants of a run of `add_turn` calls from an arbitrary
state: the cap is unchanged, the counter advances by the number of calls,
the created turns carry the consecutive ids `counter, counter+1, ...`, the
retained history is a suffix of old-history-plus-created-turns, and (for a
positive cap and an in-cap starting history) the retained length follows
`min (old + calls) cap`. -/
theorem runTurns_general (inputs : List (String × String)) :
    ∀ st : ConvContext.ContextManager,
      (ConvContext.runTurns st inputs).1.max_history_turns = st.max_history_turns ∧
      (ConvContext.runTurns st inputs).1.turn_counter = st.turn_counter + inputs.length ∧
      ((ConvContext.runTurns st inputs).2.map (fun t => t.turn_id) =
        List.range' st.turn_counter inputs.length) ∧
      ((ConvContext.runTurns st inputs).1.conversation_history <:+
        (st.conversation_history ++ (ConvContext.runTurns st inputs).2)) ∧
      (1 ≤ st.max_history_turns → st.conversation_history.length ≤ st.max_history_turns →
        (ConvContext.runTurns st inputs).1.conversation_history.length =
          min (st.conversation_history.length + inputs.length) st.max_history_turns) := by
  induction inputs with
  | nil =>
    intro st
    refine ⟨rfl, rfl, rfl, by simp [ConvContext.runTurns], ?_⟩
    intro h1 h2
    simp only [ConvContext.runTurns, List.length_nil]
    omega
  | cons rc rest ih =>
    intro st
    obtain ⟨a1, a2, a3, a4, a5⟩ := add_turn_spec st rc.1 rc.2
    obtain ⟨i1, i2, i3, i4, i5⟩ := ih (ConvContext.add_turn st rc.1 rc.2).2
    simp only [ConvContext.runTurns]
    refine ⟨by rw [i1, a3], by rw [i2, a2]; simp; omega, ?_, ?_, ?_⟩
    · simp only [List.map_cons, i3, a1, a2, List.length_cons, List.range'_succ]
    · have h2 : (((ConvContext.add_turn st rc.1 rc.2).2.conversation_history) ++
          (ConvContext.runTurns (ConvContext.add_turn st rc.1 rc.2).2 rest).2) <:+
          ((st.conversation_history ++ [(ConvContext.add_turn st rc.1 rc.2).1]) ++
            (ConvContext.runTurns (ConvContext.add_turn st rc.1 rc.2).2 rest).2) := by
        obtain ⟨u, hu⟩ := a4
        exact ⟨u, by rw [← List.append_assoc, hu]⟩
      have h3 := i4.trans h2
      simpa [List.append_assoc] using h3
    · intro hm hl
      have h5 := a5 hm hl
      have h6 := i5 (by rw [a3]; exact hm) (by rw [h5, a3]; omega)
      rw [h6, h5, a3]
      simp only [List.length_cons]
      omega

/-- **C8 counterexample.** With `max_history_turns = 0`, the Python slice
`history[-0:]` is `history[0:]`, the whole list, so the trim never removes
anything: after one `add_turn` the retained history holds 1 turn, which
exceeds the cap of 0. -/
theorem add_turn_cap_zero_counterexample :
    (ConvContext.runTurns (ConvContext.initManager 0 10 "c")
      [("user", "hi")]).1.conversation_history.length = 1 ∧
    ¬ ((ConvContext.runTurns (ConvContext.initManager 0 10 "c")
      [("user", "hi")]).1.conversation_history.length ≤ 0) :=
  ⟨by decide, by decide⟩

/-- **C8 (amended).** For every sequence of `add_turn` calls on one
conversation whose cap `max_history_turns` is at least 1: every call appends
a turn whose `turn_id` is strictly greater than all previously assigned ids
(the assigned ids are exactly `0, 1, 2, ...`, monotone even across
evictions), and after the calls the retained history is a suffix of the
created turns (oldest evicted first, FIFO) of length `min (calls, cap)` —
in particular at most `max_history_turns`.  (For `max_history_turns = 0`
the claim fails, see the counterexample: Python's `[-0:]` slice keeps the
whole list.) -/
theorem add_turn_monotone_fifo (maxH cw : Nat) (cid : String)
    (inputs : List (String × String)) (hmax : 1 ≤ maxH) :
    ((ConvContext.runTurns (ConvContext.initManager maxH cw cid) inputs).2.map
        (fun t => t.turn_id) = List.range inputs.length) ∧
    (((ConvContext.runTurns (ConvContext.initManager maxH cw cid) inputs).2.map
        (fun t => t.turn_id)).Pairwise (· < ·)) ∧
    ((ConvContext.runTurns (ConvContext.initManager maxH cw cid) inputs).1.conversation_history
      <:+ (ConvContext.runTurns (ConvContext.initManager maxH cw cid) inputs).2) ∧
    ((ConvContext.runTurns (ConvContext.initManager maxH cw cid)
        inputs).1.conversation_history.length = min inputs.length maxH) ∧
    ((ConvContext.runTurns (ConvContext.initManager maxH cw cid)
        inputs).1.conversation_history.length ≤ maxH) ∧
    (((ConvContext.runTurns (ConvContext.initManager maxH cw cid)
        inputs).1.conversation_history.map (fun t => t.turn_id)).Pairwise (· < ·)) := by
  obtain ⟨g1, g2, g3, g4, g5⟩ := runTurns_general inputs (ConvContext.initManager maxH cw cid)
  have hids : (ConvContext.runTurns (ConvContext.initManager maxH cw cid) inputs).2.map
      (fun t => t.turn_id) = List.range inputs.length := by
    rw [g3]
    exact (List.range_eq_range' inputs.length).symm
  have hsuffix : (ConvContext.runTurns (ConvContext.initManager maxH cw cid)
      inputs).1.conversation_history <:+
      (ConvContext.runTurns (ConvContext.initManager maxH cw cid) inputs).2 := by
    have := g4
    simpa using this
  have hpair : ((ConvContext.runTurns (ConvContext.initManager maxH cw cid) inputs).2.map
      (fun t => t.turn_id)).Pairwise (· < ·) := by
    rw [hids]
    exact List.pairwise_lt_range inputs.length
  have hlen : (ConvContext.runTurns (ConvContext.initManager maxH cw cid)
      inputs).1.conversation_history.length = min inputs.length maxH := by
    have := g5 hmax (by simp [ConvContext.initManager])
    simpa [ConvContext.initManager] using this
  refine ⟨hids, hpair, hsuffix, hlen, by omega, ?_⟩
  exact hpair.sublist ((hsuffix.sublist).map (fun t => t.turn_id))

/-- Witness for C8 (amended): cap 2, three calls — ids `0, 1, 2`, retained
history the last two turns. -/
theorem add_turn_monotone_fifo_witness :
    1 ≤ 2 ∧
    (((ConvContext.runTurns (ConvContext.initManager 2 10 "c")
        [("user", "a"), ("assistant", "b"), ("user", "c")]).2.map
        (fun t => t.turn_id) = List.range 3) ∧
      (((ConvContext.runTurns (ConvContext.initManager 2 10 "c")
          [("user", "a"), ("assistant", "b"), ("user", "c")]).2.map
          (fun t => t.turn_id)).Pairwise (· < ·)) ∧
      ((ConvContext.runTurns (ConvContext.initManager 2 10 "c")
          [("user", "a"), ("assistant", "b"), ("user", "c")]).1.conversation_history
        <:+ (ConvContext.runTurns (ConvContext.initManager 2 10 "c")
          [("user", "a"), ("assistant", "b"), ("user", "c")]).2) ∧
      ((ConvContext.runTurns (ConvContext.initManager 2 10 "c")
          [("user", "a"), ("assistant", "b"), ("user", "c")]).1.conversation_history.length =
        min 3 2) ∧
      ((ConvContext.runTurns (ConvContext.initManager 2 10 "c")
          [("user", "a"), ("assistant", "b"), ("user", "c")]).1.conversation_history.length ≤ 2) ∧
      (((ConvContext.runTurns (ConvContext.initManager 2 10 "c")
          [("user", "a"), ("assistant", "b"),
            ("user", "c")]).1.conversation_history.map (fun t => t.turn_id)).Pairwise (· < ·))) :=
  ⟨by decide,
    add_turn_monotone_fifo 2 10 "c" [("user", "a"), ("assistant", "b"), ("user", "c")] (by decide)⟩

/-- **C4.** Every raw hit from the sub-query at 0-indexed position `i` is
scored `combined_score = distance + i * 0.01`; the retrieval pass sorts the
aggregated hits by ascending `combined_score` (the output is a sorted
permutation of the aggregated dict values) and only then truncates to the
top `k`.  In the §8 scenario, document B (sub-query #1, distance 0.08,
combined 0.09) ranks before document A (sub-query #0, distance 0.10). -/
theorem retrieval_scores_sorted_truncated :
    (∀ (i : Nat) (d : ℚ), AdaptiveRag.combined_score_of i d = d + i * 0.01) ∧
    (∀ searchResults : List (List AdaptiveRag.RawHit),
      (AdaptiveRag.sorted_hits searchResults).Sorted AdaptiveRag.scoreLe ∧
      (AdaptiveRag.sorted_hits searchResults).Perm
        ((AdaptiveRag.aggregate searchResults).all_hits.map Prod.snd)) ∧
    (∀ (searchResults : List (List AdaptiveRag.RawHit)) (k : Nat),
      AdaptiveRag.retrieve_hits searchResults k =
        (AdaptiveRag.sorted_hits searchResults).take k ∧
      (AdaptiveRag.retrieve_hits searchResults k).Sorted AdaptiveRag.scoreLe) ∧
    ((AdaptiveRag.retrieve_hits demoScenario 50).map (fun h => h.source) =
      ["docs/users_api.json", "docs/analytics_api.json"]) ∧
    ((AdaptiveRag.retrieve_hits demoScenario 50).map (fun h => h.combined_score) =
      [9/100, 1/10]) := by
  refine ⟨fun i d => rfl, ?_, ?_, ?_, ?_⟩
  · intro searchResults
    exact ⟨List.sorted_insertionSort AdaptiveRag.scoreLe _,
      List.perm_insertionSort AdaptiveRag.scoreLe _⟩
  · intro searchResults k
    refine ⟨rfl, ?_⟩
    exact (List.sorted_insertionSort AdaptiveRag.scoreLe _).sublist (List.take_sublist _ _)
  · norm_num [AdaptiveRag.retrieve_hits, AdaptiveRag.sorted_hits, AdaptiveRag.aggregate,
      AdaptiveRag.flattenEvents, AdaptiveRag.processHit, AdaptiveRag.alookup,
      AdaptiveRag.hit_id, AdaptiveRag.mkAggHit, AdaptiveRag.combined_score_of,
      PyStr.pyStrList, demoScenario, demoRaw, demoRawB, demoMeta, demoMetaB,
      List.insertionSort, List.orderedInsert, AdaptiveRag.scoreLe]
  · norm_num [AdaptiveRag.retrieve_hits, AdaptiveRag.sorted_hits, AdaptiveRag.aggregate,
      AdaptiveRag.flattenEvents, AdaptiveRag.processHit, AdaptiveRag.alookup,
      AdaptiveRag.hit_id, AdaptiveRag.mkAggHit, AdaptiveRag.combined_score_of,
      PyStr.pyStrList, demoScenario, demoRaw, demoRawB, demoMeta, demoMetaB,
      List.insertionSort, List.orderedInsert, AdaptiveRag.scoreLe]

/-- Helper: lookup distributes over append. -/
theorem alookup_append {β : Type} (key : String) (l₁ l₂ : List (String × β)) :
    AdaptiveRag.alookup key (l₁ ++ l₂) =
      match AdaptiveRag.alookup key l₁ with
      | some v => some v
      | none => AdaptiveRag.alookup key l₂ := by
  induction l₁ with
  | nil => rfl
  | cons e l ih =>
    obtain ⟨k, v⟩ := e
    simp only [List.cons_append, AdaptiveRag.alookup]
    by_cases hk : k = key
    · simp [hk]
    · simp [hk, ih]

/-- Helper: a key looks up to `none` iff it is not among the stored keys. -/
theorem alookup_eq_none {β : Type} (key : String) (l : List (String × β)) :
    AdaptiveRag.alookup key l = none ↔ key ∉ l.map Prod.fst := by
  induction l with
  | nil => simp [AdaptiveRag.alookup]
  | cons e l ih =>
    obtain ⟨k, v⟩ := e
    simp only [AdaptiveRag.alookup, List.map_cons, List.mem_cons]
    by_cases hk : k = key
    · simp [hk]
    · have hk' : ¬ key = k := fun hh => hk hh.symm
      simp [hk, hk', ih]

/-- Helper: updating a key rewrites exactly its entry. -/
theorem alookup_aupdate_self {β : Type} (key : String) (v' : β) (l : List (String × β)) :
    AdaptiveRag.alookup key (AdaptiveRag.aupdate key v' l) =
      (AdaptiveRag.alookup key l).map fun _ => v' := by
  induction l with
  | nil => rfl
  | cons e l ih =>
    obtain ⟨k, v⟩ := e
    simp only [AdaptiveRag.aupdate, List.map_cons] at ih ⊢
    by_cases hk : k = key
    · subst hk
      rw [show (if (k, v).1 = k then (k, v') else (k, v)) = (k, v') from if_pos rfl]
      simp [AdaptiveRag.alookup]
    · rw [show (if (k, v).1 = key then (key, v') else (k, v)) = (k, v) from if_neg hk]
      simp [AdaptiveRag.alookup, hk, ih]

/-- Helper: updating one key leaves the other keys unchanged. -/
theorem alookup_aupdate_ne {β : Type} (key key' : String) (h : key' ≠ key) (v' : β)
    (l : List (String × β)) :
    AdaptiveRag.alookup key' (AdaptiveRag.aupdate key v' l) =
      AdaptiveRag.alookup key' l := by
  induction l with
  | nil => rfl
  | cons e l ih =>
    obtain ⟨k, v⟩ := e
    simp only [AdaptiveRag.aupdate, List.map_cons] at ih ⊢
    by_cases hk : k = key
    · subst hk
      have h' : ¬ k = key' := fun hh => h hh.symm
      rw [show (if (k, v).1 = k then (k, v') else (k, v)) = (k, v') from if_pos rfl]
      simp [AdaptiveRag.alookup, h', ih]
    · rw [show (if (k, v).1 = key then (key, v') else (k, v)) = (k, v) from if_neg hk]
      simp [AdaptiveRag.alookup, ih]

/-- Helper: updating values does not change the stored keys. -/
theorem aupdate_map_fst {β : Type} (key : String) (v' : β) (l : List (String × β)) :
    (AdaptiveRag.aupdate key v' l).map Prod.fst = l.map Prod.fst := by
  induction l with
  | nil => rfl
  | cons e l ih =>
    obtain ⟨k, v⟩ := e
    simp only [AdaptiveRag.aupdate, List.map_cons] at ih ⊢
    by_cases hk : k = key
    · subst hk
      rw [show (if (k, v).1 = k then (k, v') else (k, v)) = (k, v') from if_pos rfl]
      simp [ih]
    · rw [show (if (k, v).1 = key then (key, v') else (k, v)) = (k, v) from if_neg hk]
      simp [ih]

/-- Helper: membership in the seen-set de-duplication. -/
theorem mem_dedupAux [DecidableEq α] (x : α) (l : List α) : ∀ seen : List α,
    x ∈ PyStr.dedupAux seen l ↔ x ∈ l ∧ x ∉ seen := by
  induction l with
  | nil => intro seen; simp [PyStr.dedupAux]
  | cons y l ih =>
    intro seen
    by_cases hy : y ∈ seen
    · rw [PyStr.dedupAux, if_pos hy, ih]
      by_cases hxy : x = y
      · subst hxy
        simp [hy]
      · simp [hxy]
    · rw [PyStr.dedupAux, if_neg hy]
      by_cases hxy : x = y
      · subst hxy
        simp [hy]
      · simp only [List.mem_cons, ih, List.mem_cons]
        constructor
        · rintro (h | ⟨h1, h2⟩)
          · exact absurd h hxy
          · exact ⟨Or.inr h1, fun hc => h2 (Or.inr hc)⟩
        · rintro ⟨h1 | h1, h2⟩
          · exact absurd h1 hxy
          · exact Or.inr ⟨h1, fun hc => h2 (by rcases hc with hc | hc; exact absurd hc hxy; exact hc)⟩

/-- Helper: de-duplicating after appending one element either drops it (when
already seen) or keeps it at the end. -/
theorem dedupAux_append_singleton [DecidableEq α] (x : α) (l : List α) : ∀ seen : List α,
    PyStr.dedupAux seen (l ++ [x]) =
      if x ∈ seen ∨ x ∈ l then PyStr.dedupAux seen l
      else PyStr.dedupAux seen l ++ [x] := by
  induction l with
  | nil =>
    intro seen
    by_cases hx : x ∈ seen <;> simp [PyStr.dedupAux, hx]
  | cons y l ih =>
    intro seen
    by_cases hy : y ∈ seen
    · rw [List.cons_append, PyStr.dedupAux, if_pos hy, ih seen, PyStr.dedupAux, if_pos hy]
      by_cases hxy : x = y
      · subst hxy
        simp [hy]
      · simp [List.mem_cons, hxy]
    · rw [List.cons_append, PyStr.dedupAux, if_neg hy, ih (y :: seen), PyStr.dedupAux, if_neg hy]
      by_cases hxy : x = y
      · subst hxy
        simp [List.mem_cons]
      · by_cases hx : x ∈ seen ∨ x ∈ l
        · rw [if_pos (by simp [List.mem_cons, hxy]; tauto), if_pos (by simp [List.mem_cons]; tauto)]
        · rw [if_neg (by simp [List.mem_cons, hxy]; tauto), if_neg (by simp [List.mem_cons]; tauto),
            List.cons_append]

/-- Helper: appending an entry with a fresh key does not disturb lookups of
other keys. -/
theorem alookup_append_ne {β : Type} (key k0 : String) (hk : k0 ≠ key) (v : β)
    (l : List (String × β)) :
    AdaptiveRag.alookup key (l ++ [(k0, v)]) = AdaptiveRag.alookup key l := by
  rw [alookup_append]
  cases hl : AdaptiveRag.alookup key l
  · simp [AdaptiveRag.alookup, hk]
  · rfl

/-- Helper: one aggregation step preserves the fold invariant. -/
theorem aggInv_step (evs : List (Nat × AdaptiveRag.RawHit)) (st : AdaptiveRag.AggState)
    (e : Nat × AdaptiveRag.RawHit) (h : AdaptiveRag.AggInv evs st) :
    AdaptiveRag.AggInv (evs ++ [e]) (AdaptiveRag.processHit st e) := by
  obtain ⟨hnd, hkey⟩ := h
  have hfilter : ∀ key : String, AdaptiveRag.eventSightings (evs ++ [e]) key =
      AdaptiveRag.eventSightings evs key ++
        (if AdaptiveRag.hit_id e.2 = key then [e] else []) := by
    intro key
    simp only [AdaptiveRag.eventSightings, List.filter_append, List.filter_singleton]
    by_cases hk : AdaptiveRag.hit_id e.2 = key
    · simp [hk]
    · simp [hk]
  cases hc : AdaptiveRag.alookup (AdaptiveRag.hit_id e.2) st.all_hits with
  | none =>
    have hstep : AdaptiveRag.processHit st e =
        { all_hits := st.all_hits ++ [(AdaptiveRag.hit_id e.2,
            AdaptiveRag.mkAggHit e.2 (AdaptiveRag.combined_score_of e.1 e.2.distance))],
          search_order := st.search_order ++ [(AdaptiveRag.hit_id e.2, e.1)],
          source_diversity := st.source_diversity ++
            [(AdaptiveRag.hit_id e.2, [e.2.md.doc_id])] } := by
      simp only [AdaptiveRag.processHit, hc]
    rw [hstep]
    constructor
    · have hk0 : AdaptiveRag.hit_id e.2 ∉ st.all_hits.map Prod.fst :=
        (alookup_eq_none _ _).mp hc
      simp only [List.map_append, List.map_cons, List.map_nil]
      exact hnd.append (List.nodup_singleton _) (by simpa using hk0)
    · intro key
      rw [hfilter key]
      by_cases hk : AdaptiveRag.hit_id e.2 = key
      · subst hk
        rw [if_pos rfl]
        have hempty : AdaptiveRag.eventSightings evs (AdaptiveRag.hit_id e.2) = [] :=
          ((hkey _).1).mp hc
        have hso : AdaptiveRag.alookup (AdaptiveRag.hit_id e.2) st.search_order = none := by
          rw [(hkey _).2.2.1, hempty]
          rfl
        have hsd : AdaptiveRag.alookup (AdaptiveRag.hit_id e.2) st.source_diversity = none := by
          rw [(hkey _).2.2.2, if_pos hempty]
        rw [hempty]
        refine ⟨?_, ?_, ?_, ?_⟩
        · constructor
          · intro hcontr
            rw [alookup_append, hc] at hcontr
            simp [AdaptiveRag.alookup] at hcontr
          · intro hcontr
            simp at hcontr
        · intro a ha
          rw [alookup_append, hc] at ha
          simp only [AdaptiveRag.alookup, if_pos rfl] at ha
          obtain rfl : AdaptiveRag.mkAggHit e.2
              (AdaptiveRag.combined_score_of e.1 e.2.distance) = a := by
            exact Option.some.inj ha
          exact ⟨⟨e, by simp, rfl⟩, by intro ev hev; simp at hev; subst hev; exact le_refl _⟩
        · rw [alookup_append, hso]
          simp [AdaptiveRag.alookup]
        · rw [alookup_append, hsd]
          simp only [List.nil_append]
          rw [if_neg (by simp)]
          simp [AdaptiveRag.alookup, PyStr.dedupKeepFirst, PyStr.dedupAux]
      · rw [if_neg hk]
        simp only [List.append_nil]
        obtain ⟨p1, p2, p3, p4⟩ := hkey key
        exact ⟨by rw [alookup_append_ne key _ hk]; exact p1,
          fun a ha => p2 a (by rwa [alookup_append_ne key _ hk] at ha),
          by rw [alookup_append_ne key _ hk]; exact p3,
          by rw [alookup_append_ne key _ hk]; exact p4⟩
  | some a =>
    have hne : AdaptiveRag.eventSightings evs (AdaptiveRag.hit_id e.2) ≠ [] := by
      intro hemp
      have := ((hkey _).1).mpr hemp
      rw [hc] at this
      exact Option.noConfusion this
    have hsd : AdaptiveRag.alookup (AdaptiveRag.hit_id e.2) st.source_diversity =
        some (PyStr.dedupKeepFirst
          ((AdaptiveRag.eventSightings evs (AdaptiveRag.hit_id e.2)).map
            fun ev => ev.2.md.doc_id)) := by
      rw [(hkey _).2.2.2, if_neg hne]
    by_cases hmem : e.2.md.doc_id ∈ PyStr.dedupKeepFirst
        ((AdaptiveRag.eventSightings evs (AdaptiveRag.hit_id e.2)).map
          fun ev => ev.2.md.doc_id)
    · have hstep : AdaptiveRag.processHit st e =
          { st with
            all_hits := AdaptiveRag.aupdate (AdaptiveRag.hit_id e.2)
              (if AdaptiveRag.combined_score_of e.1 e.2.distance < a.combined_score
               then { a with distance := e.2.distance, combined_score := AdaptiveRag.combined_score_of e.1 e.2.distance }
               else a) st.all_hits } := by
        simp only [AdaptiveRag.processHit, hc, hsd, hmem, if_pos]
      rw [hstep]
      refine ⟨by rw [aupdate_map_fst]; exact hnd, ?_⟩
      intro key
      rw [hfilter key]
      by_cases hk : AdaptiveRag.hit_id e.2 = key
      · subst hk
        rw [if_pos rfl]
        obtain ⟨p1, p2, p3, p4⟩ := hkey (AdaptiveRag.hit_id e.2)
        obtain ⟨⟨ev0, hev0, hsc0⟩, hall⟩ := p2 a hc
        refine ⟨?_, ?_, ?_, ?_⟩
        · rw [alookup_aupdate_self, hc]
          constructor
          · intro hcontr
            simp at hcontr
          · intro hcontr
            exact absurd (List.append_eq_nil.mp hcontr).1 hne
        · intro b hb
          rw [alookup_aupdate_self, hc] at hb
          rw [Option.map_some'] at hb
          obtain rfl : (if AdaptiveRag.combined_score_of e.1 e.2.distance < a.combined_score
              then { a with distance := e.2.distance, combined_score := AdaptiveRag.combined_score_of e.1 e.2.distance }
              else a) = b := Option.some.inj hb
          by_cases hlt : AdaptiveRag.combined_score_of e.1 e.2.distance < a.combined_score
          · rw [if_pos hlt]
            refine ⟨⟨e, by simp, rfl⟩, ?_⟩
            intro ev hev
            rcases List.mem_append.mp hev with hev | hev
            · exact le_trans (le_of_lt hlt) (hall ev hev)
            · simp at hev
              subst hev
              exact le_refl _
          · rw [if_neg hlt]
            refine ⟨⟨ev0, List.mem_append_left _ hev0, hsc0⟩, ?_⟩
            intro ev hev
            rcases List.mem_append.mp hev with hev | hev
            · exact hall ev hev
            · simp at hev
              subst hev
              exact le_of_not_gt hlt
        · rw [p3]
          cases hcase : AdaptiveRag.eventSightings evs (AdaptiveRag.hit_id e.2) with
          | nil => exact absurd hcase hne
          | cons ev0' tl => simp
        · rw [hsd, if_neg (by simp)]
          congr 1
          rw [List.map_append]
          simp only [List.map_cons, List.map_nil]
          rw [PyStr.dedupKeepFirst, PyStr.dedupKeepFirst, dedupAux_append_singleton]
          have hmem' : e.2.md.doc_id ∈
              (AdaptiveRag.eventSightings evs (AdaptiveRag.hit_id e.2)).map
                (fun ev => ev.2.md.doc_id) :=
            ((mem_dedupAux _ _ []).mp hmem).1
          rw [if_pos (Or.inr hmem')]
      · rw [if_neg hk]
        simp only [List.append_nil]
        obtain ⟨p1, p2, p3, p4⟩ := hkey key
        exact ⟨by rw [alookup_aupdate_ne _ _ (fun hh => hk hh.symm)]; exact p1,
          fun b hb => p2 b (by rwa [alookup_aupdate_ne _ _ (fun hh => hk hh.symm)] at hb),
          p3, p4⟩
    · have hstep : AdaptiveRag.processHit st e =
          { st with
            all_hits := AdaptiveRag.aupdate (AdaptiveRag.hit_id e.2)
              (if AdaptiveRag.combined_score_of e.1 e.2.distance < a.combined_score
               then { a with distance := e.2.distance, combined_score := AdaptiveRag.combined_score_of e.1 e.2.distance }
               else a) st.all_hits,
            source_diversity := AdaptiveRag.aupdate (AdaptiveRag.hit_id e.2)
              ((PyStr.dedupKeepFirst
                ((AdaptiveRag.eventSightings evs (AdaptiveRag.hit_id e.2)).map
                  fun ev => ev.2.md.doc_id)) ++ [e.2.md.doc_id]) st.source_diversity } := by
        simp only [AdaptiveRag.processHit, hc, hsd, hmem, if_neg, if_false]
      rw [hstep]
      refine ⟨by rw [aupdate_map_fst]; exact hnd, ?_⟩
      intro key
      rw [hfilter key]
      by_cases hk : AdaptiveRag.hit_id e.2 = key
      · subst hk
        rw [if_pos rfl]
        obtain ⟨p1, p2, p3, p4⟩ := hkey (AdaptiveRag.hit_id e.2)
        obtain ⟨⟨ev0, hev0, hsc0⟩, hall⟩ := p2 a hc
        refine ⟨?_, ?_, ?_, ?_⟩
        · rw [alookup_aupdate_self, hc]
          constructor
          · intro hcontr
            simp at hcontr
          · intro hcontr
            exact absurd (List.append_eq_nil.mp hcontr).1 hne
        · intro b hb
          rw [alookup_aupdate_self, hc] at hb
          rw [Option.map_some'] at hb
          obtain rfl : (if AdaptiveRag.combined_score_of e.1 e.2.distance < a.combined_score
              then { a with distance := e.2.distance, combined_score := AdaptiveRag.combined_score_of e.1 e.2.distance }
              else a) = b := Option.some.inj hb
          by_cases hlt : AdaptiveRag.combined_score_of e.1 e.2.distance < a.combined_score
          · rw [if_pos hlt]
            refine ⟨⟨e, by simp, rfl⟩, ?_⟩
            intro ev hev
            rcases List.mem_append.mp hev with hev | hev
            · exact le_trans (le_of_lt hlt) (hall ev hev)
            · simp at hev
              subst hev
              exact le_refl _
          · rw [if_neg hlt]
            refine ⟨⟨ev0, List.mem_append_left _ hev0, hsc0⟩, ?_⟩
            intro ev hev
            rcases List.mem_append.mp hev with hev | hev
            · exact hall ev hev
            · simp at hev
              subst hev
              exact le_of_not_gt hlt
        · rw [p3]
          cases hcase : AdaptiveRag.eventSightings evs (AdaptiveRag.hit_id e.2) with
          | nil => exact absurd hcase hne
          | cons ev0' tl => simp
        · rw [alookup_aupdate_self, hsd]
          rw [Option.map_some']
          rw [if_neg (by simp)]
          congr 1
          rw [List.map_append]
          simp only [List.map_cons, List.map_nil]
          rw [PyStr.dedupKeepFirst, PyStr.dedupKeepFirst, dedupAux_append_singleton]
          have hmem' : e.2.md.doc_id ∉
              (AdaptiveRag.eventSightings evs (AdaptiveRag.hit_id e.2)).map
                (fun ev => ev.2.md.doc_id) := by
            intro hin
            exact hmem ((mem_dedupAux _ _ []).mpr ⟨hin, by simp⟩)
          rw [if_neg (by simp [hmem'])]
      · rw [if_neg hk]
        simp only [List.append_nil]
        obtain ⟨p1, p2, p3, p4⟩ := hkey key
        exact ⟨by rw [alookup_aupdate_ne _ _ (fun hh => hk hh.symm)]; exact p1,
          fun b hb => p2 b (by rwa [alookup_aupdate_ne _ _ (fun hh => hk hh.symm)] at hb),
          p3,
          by rw [alookup_aupdate_ne _ _ (fun hh => hk hh.symm)]; exact p4⟩

/-- Helper: folding the aggregation step over any event list preserves the
invariant. -/
theorem aggInv_foldl (evs : List (Nat × AdaptiveRag.RawHit)) :
    ∀ (prev : List (Nat × AdaptiveRag.RawHit)) (st : AdaptiveRag.AggState),
      AdaptiveRag.AggInv prev st →
      AdaptiveRag.AggInv (prev ++ evs) (evs.foldl AdaptiveRag.processHit st) := by
  induction evs with
  | nil =>
    intro prev st h
    simpa using h
  | cons e evs ih =>
    intro prev st h
    have h1 := aggInv_step prev st e h
    have h2 := ih (prev ++ [e]) _ h1
    simpa [List.append_assoc] using h2

/-- Helper: the empty aggregation state satisfies the invariant for the
empty event list. -/
theorem aggInv_init : AdaptiveRag.AggInv [] ⟨[], [], []⟩ := by
  refine ⟨List.nodup_nil, fun key => ?_⟩
  refine ⟨by simp [AdaptiveRag.alookup, AdaptiveRag.eventSightings], ?_, ?_, ?_⟩
  · intro a ha
    simp [AdaptiveRag.alookup] at ha
  · simp [AdaptiveRag.alookup, AdaptiveRag.eventSightings]
  · simp [AdaptiveRag.alookup, AdaptiveRag.eventSightings]

/-- Helper: the invariant holds of the full aggregation pass. -/
theorem aggInv_aggregate (searchResults : List (List AdaptiveRag.RawHit)) :
    AdaptiveRag.AggInv (AdaptiveRag.flattenEvents searchResults)
      (AdaptiveRag.aggregate searchResults) := by
  have h := aggInv_foldl (AdaptiveRag.flattenEvents searchResults) [] ⟨[], [], []⟩ aggInv_init
  simpa [AdaptiveRag.aggregate] using h

/-- **C3 (amended).** Within one retrieval pass every identity
(`doc_id + "_" + str(section_path)`) is merged, never duplicated: the
aggregated keys are unique, an identity is stored iff it was sighted, and
its `combined_score` is the minimum of `distance + 0.01·position` over all
its sightings (so for two sightings with distances `d1, d2` at positions
`i1, i2` it is `min (d1 + 0.01·i1) (d2 + 0.01·i2)`).  However the code keeps
no `found_in_searches` set: per identity it records only the *first*
sighting's search index (`search_order`) and the set of source names
(`source_diversity`) in first-seen order — and since the source is part of
the identity key, for sightings of one `(doc_id, section_path)` that set
stays the singleton of its `doc_id`. -/
theorem aggregation_dedup_min (searchResults : List (List AdaptiveRag.RawHit)) (key : String) :
    (((AdaptiveRag.aggregate searchResults).all_hits.map Prod.fst).Nodup) ∧
    (AdaptiveRag.alookup key (AdaptiveRag.aggregate searchResults).all_hits = none ↔
      AdaptiveRag.sightingsOf searchResults key = []) ∧
    (∀ a, AdaptiveRag.alookup key (AdaptiveRag.aggregate searchResults).all_hits = some a →
      ((∃ ev ∈ AdaptiveRag.sightingsOf searchResults key,
          a.combined_score = AdaptiveRag.combined_score_of ev.1 ev.2.distance) ∧
        (∀ ev ∈ AdaptiveRag.sightingsOf searchResults key,
          a.combined_score ≤ AdaptiveRag.combined_score_of ev.1 ev.2.distance))) ∧
    (AdaptiveRag.alookup key (AdaptiveRag.aggregate searchResults).search_order =
      (AdaptiveRag.sightingsOf searchResults key).head?.map fun ev => ev.1) ∧
    (AdaptiveRag.recorded_search_indices (AdaptiveRag.aggregate searchResults) key =
      match (AdaptiveRag.sightingsOf searchResults key).head? with
      | some ev => [ev.1]
      | none => []) ∧
    (AdaptiveRag.alookup key (AdaptiveRag.aggregate searchResults).source_diversity =
      if AdaptiveRag.sightingsOf searchResults key = [] then none
      else some (PyStr.dedupKeepFirst
        ((AdaptiveRag.sightingsOf searchResults key).map fun ev => ev.2.md.doc_id))) := by
  obtain ⟨hnd, hkey⟩ := aggInv_aggregate searchResults
  obtain ⟨p1, p2, p3, p4⟩ := hkey key
  refine ⟨hnd, p1, p2, p3, ?_, p4⟩
  rw [AdaptiveRag.recorded_search_indices, p3]
  simp only [AdaptiveRag.sightingsOf]
  cases hh : (AdaptiveRag.eventSightings (AdaptiveRag.flattenEvents searchResults) key).head? with
  | none => rfl
  | some ev => rfl

/-- **C3 counterexample.** In a pass where the identity of `demoRaw` is
returned by sub-queries #0 and #1 (distances 0.10 < 0.20), the spec's
`found_in_searches` would be `{0, 1}`, but the aggregation records no such
set: the only search index it keeps for the identity is the first one
(`search_order = 0`), and its only set-valued record is `source_diversity`,
which stays the singleton of the document id.  The `combined_score` part of
the claim does hold: `min (0.10 + 0, 0.20 + 0.01) = 0.10`. -/
theorem found_in_searches_counterexample :
    AdaptiveRag.found_in_searches_spec demoDupInputs (AdaptiveRag.hit_id demoRaw) = [0, 1] ∧
    AdaptiveRag.recorded_search_indices (AdaptiveRag.aggregate demoDupInputs)
      (AdaptiveRag.hit_id demoRaw) = [0] ∧
    (1 : Nat) ∉ AdaptiveRag.recorded_search_indices (AdaptiveRag.aggregate demoDupInputs)
      (AdaptiveRag.hit_id demoRaw) ∧
    ([0] : List Nat) ≠ [0, 1] ∧
    AdaptiveRag.alookup (AdaptiveRag.hit_id demoRaw)
      (AdaptiveRag.aggregate demoDupInputs).source_diversity =
      some ["docs/analytics_api.json"] ∧
    (AdaptiveRag.alookup (AdaptiveRag.hit_id demoRaw)
      (AdaptiveRag.aggregate demoDupInputs).all_hits).map (fun a => a.combined_score) =
      some (1/10) := by
  refine ⟨?_, ?_, ?_, by decide, ?_, ?_⟩ <;>
    norm_num [AdaptiveRag.found_in_searches_spec, AdaptiveRag.recorded_search_indices,
      AdaptiveRag.sightingsOf, AdaptiveRag.eventSightings, AdaptiveRag.flattenEvents,
      AdaptiveRag.aggregate, AdaptiveRag.processHit, AdaptiveRag.alookup, AdaptiveRag.hit_id,
      AdaptiveRag.mkAggHit, AdaptiveRag.combined_score_of, PyStr.pyStrList,
      PyStr.dedupKeepFirst, PyStr.dedupAux, demoDupInputs, demoRaw, demoDup2, demoMeta]

/-- **C7.** With at most 6 retained turns the compacted context of
`get_context_for_rag(use_compact=True)` is exactly the uncompacted context
window.  With more than 6 turns, the compacted output is a summary block
followed by `[RECENT CONVERSATION]` and one line per turn of the 6-turn
recent window; the very last line carries the most recent turn's content
verbatim, while every earlier line of the window whose content exceeds 800
characters carries only the first 800 characters (plus the `"..."`
truncation marker). -/
theorem compact_context_spec :
    (∀ st : ConvContext.ContextManager, st.conversation_history.length ≤ 6 →
      (ConvContext.get_context_for_rag st true).full_context =
        (ConvContext.get_context_for_rag st false).full_context) ∧
    (∀ st : ConvContext.ContextManager, 6 < st.conversation_history.length →
      ∃ pre ls,
        ConvContext.compact_context st =
          String.intercalate "\n" (pre ++ ["[RECENT CONVERSATION]"] ++ ls) ∧
        ls.length = 6 ∧
        (∀ t, st.conversation_history.getLast? = some t →
          ls.getLast? = some (ConvContext.role_label t ++ ": " ++ t.content)) ∧
        (∀ (i : Nat) (t : ConvContext.ConversationTurn), i + 1 < 6 →
          (st.conversation_history.drop (st.conversation_history.length - 6)).get? i =
            some t →
          t.content.length > 800 →
          ls.get? i =
            some (ConvContext.role_label t ++ ": " ++ (t.content.take 800 ++ "...")))) := by
  constructor
  · intro st hlen
    by_cases hemp : st.conversation_history.isEmpty
    · simp [ConvContext.get_context_for_rag, ConvContext.compact_context,
        ConvContext.get_context_window, hemp]
    · simp [ConvContext.get_context_for_rag, ConvContext.compact_context, hemp, hlen]
  · intro st hlen
    have hemp : st.conversation_history.isEmpty = false := by
      cases hh : st.conversation_history with
      | nil => rw [hh] at hlen; simp at hlen
      | cons a l => rfl
    have hnle : ¬ (st.conversation_history.length ≤ 6) := by omega
    have hreclen :
        (st.conversation_history.drop (st.conversation_history.length - 6)).length = 6 := by
      rw [List.length_drop]
      omega
    rw [ConvContext.compact_context]
    rw [if_neg (by simp [hemp]), if_neg hnle]
    refine ⟨_, _, rfl, ?_, ?_, ?_⟩
    · simp [List.length_map, List.enum_length, hreclen]
    · intro t ht
      have hlast :
          (st.conversation_history.drop (st.conversation_history.length - 6)).get?
            ((st.conversation_history.drop (st.conversation_history.length - 6)).length - 1) =
            some t := by
        rw [← List.getLast?_eq_get?, List.getLast?_drop, if_neg (by omega)]
        exact ht
      rw [List.getLast?_eq_get?]
      rw [List.get?_map, List.get?_enum]
      rw [List.length_map, List.enum_length, hreclen]
      rw [hreclen] at hlast
      rw [hlast]
      simp only [Option.map_some']
      have hcond : ¬ ((6 - 1 : Nat) + 1 ≠ 6 ∧ t.content.length > 800) := by
        intro hcontra
        exact hcontra.1 (by omega)
      rw [if_neg hcond]
    · intro i t hi hget h800
      rw [List.get?_map, List.get?_enum, hget]
      simp only [Option.map_some']
      have hcond : (i + 1 ≠
          (st.conversation_history.drop (st.conversation_history.length - 6)).length ∧
          t.content.length > 800) := by
        rw [hreclen]
        exact ⟨by omega, h800⟩
      rw [if_pos hcond]

/-- Witness for C7 at two concrete conversations: three turns (no
compaction) and seven turns (one long non-final turn in the window). -/
theorem compact_context_spec_witness :
    (demoConv3.conversation_history.length ≤ 6 ∧
      (ConvContext.get_context_for_rag demoConv3 true).full_context =
        (ConvContext.get_context_for_rag demoConv3 false).full_context) ∧
    (6 < demoConv7.conversation_history.length ∧
      ∃ pre ls,
        ConvContext.compact_context demoConv7 =
          String.intercalate "\n" (pre ++ ["[RECENT CONVERSATION]"] ++ ls) ∧
        ls.length = 6 ∧
        (∀ t, demoConv7.conversation_history.getLast? = some t →
          ls.getLast? = some (ConvContext.role_label t ++ ": " ++ t.content)) ∧
        (∀ (i : Nat) (t : ConvContext.ConversationTurn), i + 1 < 6 →
          (demoConv7.conversation_history.drop
            (demoConv7.conversation_history.length - 6)).get? i = some t →
          t.content.length > 800 →
          ls.get? i =
            some (ConvContext.role_label t ++ ": " ++ (t.content.take 800 ++ "...")))) :=
  ⟨⟨by decide, compact_context_spec.1 demoConv3 (by decide)⟩,
    ⟨by decide, compact_context_spec.2 demoConv7 (by decide)⟩⟩
